import Mathlib

/-!
Shallow embedding of `src/btree/rec_evict.c` (WiredTiger 2011 reconciliation +
eviction core) and verification of the specification's claims about it.

Modelling conventions:
* Machine pointers become `Nat` page ids; `page == last_page` pointer comparisons
  become id comparisons.
* The in-memory subtree rooted at the eviction candidate is an inductive tree
  (`Page`); a parent's `WT_REF` child slot is a `(RefState, Page)` pair in the
  parent's `ChildList`.  The candidate's own `parent_ref` is carried separately
  as a `ParentRef` record, since it lives outside the candidate's subtree.
* The in-place C mutations become explicit state passing: the walks return the
  updated subtree, updated ref states, remaining oracle inputs, traces.
* External collaborators are oracles: `__wt_rec_write` consumes a
  `List WriteResult` (one entry per call, in call order);
  `__wt_rec_track_discard` is a function from page id to return code;
  `__wt_page_out` appends the page id to a discard trace; the hazard table is a
  list of raw tables, one per `__hazard_copy` call (a fresh snapshot per retry).
* Fallible C functions return `Option`: `Option.none` models divergence of the
  forced-acquisition yield loop (hazard snapshots exhausted) or an exhausted
  write oracle; `Option.some ret` carries the C `int` return (0 = success).
* `WT_ASSERT` is diagnostic-only in the source; the asserts inside the unlock
  walks are recorded as a boolean (`true` = every assert held) so theorems can
  observe assertion violations without aborting, matching a non-diagnostic build.
-/

namespace RecEvict

/-- WT_REF state field values (WT_REF_DISK / WT_REF_READING / WT_REF_MEM /
WT_REF_LOCKED). -/
inductive RefState where
  | disk | reading | mem | locked
deriving DecidableEq, Repr

/-- Page types as far as this file dispatches on them: column-store internal,
row-store internal, and everything else (leaf variants). -/
inductive PageType where
  | colInt | rowInt | leaf
deriving DecidableEq, Repr

/-- The WT_PAGE_REC_* reconciliation-result flag bits of a page. -/
structure RecFlags where
  empty : Bool
  replace : Bool
  split : Bool
  splitMerge : Bool
deriving DecidableEq, Repr

/-- No WT_PAGE_REC_* flag set (F_ISSET(page, WT_PAGE_REC_MASK) == 0). -/
def RecFlags.clear : RecFlags := ⟨false, false, false, false⟩

/-- Exactly WT_PAGE_REC_EMPTY. -/
def RecFlags.emptyOnly : RecFlags := ⟨true, false, false, false⟩

/-- Exactly WT_PAGE_REC_REPLACE. -/
def RecFlags.replaceOnly : RecFlags := ⟨false, true, false, false⟩

/-- Exactly WT_PAGE_REC_SPLIT. -/
def RecFlags.splitOnly : RecFlags := ⟨false, false, true, false⟩

/-- Exactly WT_PAGE_REC_SPLIT_MERGE. -/
def RecFlags.splitMergeOnly : RecFlags := ⟨false, false, false, true⟩

/-- The caller-supplied eviction flags: WT_REC_SINGLE (tree locked down by the
caller) and WT_REC_WAIT (forced hazard acquisition). -/
structure EvictFlags where
  single : Bool
  wait : Bool
deriving DecidableEq, Repr

/-- WT_ERROR, the generic failure return (any fixed nonzero value works for the
embedding; review/unlock only ever test against 0). -/
def WT_ERROR : Nat := 2

/-- WT_ADDR_INVALID ((uint32_t)-1). -/
def WT_ADDR_INVALID : Nat := 4294967295

mutual
/-- WT_PAGE: a page of the in-memory tree, with the fields this file reads or
writes: type, root marker (WT_PAGE_IS_ROOT), the WT_PAGE_REC_* flags,
WT_PAGE_FORCE_EVICT, read generation, the dirty bit (__wt_page_is_modified),
the WT_PAGE_MODIFY record, and the child reference slots of an internal page. -/
inductive Page where
  | mk (id : Nat) (ptype : PageType) (isRoot : Bool) (rec : RecFlags)
       (forceEvict : Bool) (readGen : Nat) (modified : Bool)
       (mod : PageMod) (children : ChildList)

/-- WT_PAGE_MODIFY: absent (NULL), allocated with the union unset, or carrying
the reconciliation result union `u`: write_off (addr/size) or write_split. -/
inductive PageMod where
  | none
  | blank
  | off (addr size : Nat)
  | split (p : Page)

/-- The WT_COL_REF / WT_ROW_REF slot array of an internal page: each slot is the
embedded WT_REF's state plus its page pointer.  (The slot's on-disk addr/size
are never read or written by this file and are omitted.) -/
inductive ChildList where
  | nil
  | cons (state : RefState) (child : Page) (rest : ChildList)
end

def Page.id : Page → Nat
  | .mk i _ _ _ _ _ _ _ _ => i

def Page.ptype : Page → PageType
  | .mk _ t _ _ _ _ _ _ _ => t

def Page.isRoot : Page → Bool
  | .mk _ _ r _ _ _ _ _ _ => r

def Page.recFlags : Page → RecFlags
  | .mk _ _ _ rc _ _ _ _ _ => rc

def Page.forceEvict : Page → Bool
  | .mk _ _ _ _ f _ _ _ _ => f

def Page.readGen : Page → Nat
  | .mk _ _ _ _ _ g _ _ _ => g

def Page.modified : Page → Bool
  | .mk _ _ _ _ _ _ m _ _ => m

def Page.mod : Page → PageMod
  | .mk _ _ _ _ _ _ _ md _ => md

def Page.children : Page → ChildList
  | .mk _ _ _ _ _ _ _ _ cs => cs

def Page.withChildren : Page → ChildList → Page
  | .mk i t r rc f g m md _, cs => .mk i t r rc f g m md cs

def Page.withReadGen : Page → Nat → Page
  | .mk i t r rc f _ m md cs, g => .mk i t r rc f g m md cs

def Page.withForceEvict : Page → Bool → Page
  | .mk i t r rc _ g m md cs, f => .mk i t r rc f g m md cs

def Page.withRec : Page → RecFlags → Page
  | .mk i t r _ f g m md cs, rc => .mk i t r rc f g m md cs

def Page.withModified : Page → Bool → Page
  | .mk i t r rc f g _ md cs, m => .mk i t r rc f g m md cs

def Page.withMod : Page → PageMod → Page
  | .mk i t r rc f g m _ cs, md => .mk i t r rc f g m md cs

/-- A placeholder page, returned by the partial union accessors when the union
does not hold the requested member (reading it in C would be undefined). -/
def dummyPage : Page := .mk 0 .leaf false RecFlags.clear false 0 false .none .nil

/-- modify->u.write_off.addr. -/
def Page.modOffAddr (p : Page) : Nat :=
  match p.mod with
  | .off a _ => a
  | _ => 0

/-- modify->u.write_off.size. -/
def Page.modOffSize (p : Page) : Nat :=
  match p.mod with
  | .off _ s => s
  | _ => 0

/-- modify->u.write_split. -/
def Page.modSplitPage (p : Page) : Page :=
  match p.mod with
  | .split q => q
  | _ => dummyPage

/-- The raw hazard tables handed to successive `__hazard_copy` calls, one table
per call (each retry of the acquirer takes a fresh snapshot). -/
abbrev Snaps := List (List (Option Nat))

/-- __hazard_copy: compact the raw hazard table, skipping empty slots.  The
qsort it performs (paired with `bsearch` in `__hazard_exclusive`) implements a
membership lookup, which the embedding models as list membership. -/
def hazardCopy (raw : List (Option Nat)) : List Nat := raw.filterMap id

/-- __hazard_exclusive: request exclusive access to a ref.  The C sets
`ref->state = WT_REF_LOCKED`, then loops: take a fresh hazard snapshot and
search it for `ref->page`; if absent return 0 (ref stays LOCKED); if present
and `force`, yield and retry; if present and not `force`, restore
`ref->state = WT_REF_MEM` and return 1.  Returns the C return code, the ref
state at exit, and the remaining snapshot stream; `Option.none` models the
forced retry loop never finding the page absent (snapshots exhausted). -/
def hazardExclusive (force : Bool) (pg : Nat) : Snaps → Option (Nat × RefState × Snaps)
  | [] => Option.none
  | t :: rest =>
    if (hazardCopy t).contains pg then
      if force then hazardExclusive force pg rest
      else Option.some (1, RefState.mem, rest)
    else Option.some (0, RefState.locked, rest)

/-- __rec_sub_excl_page: check whether an in-memory child can be merged into
its parent.  Cheap prefilter on the REC flags (fails before any lock is
taken); then, unless WT_REC_SINGLE, lock the child's ref via
__hazard_exclusive; then the careful test: merge-split pages always pass,
split or empty pages pass iff clean.  Returns the C return code, the child
slot's ref state at exit, and the remaining snapshots. -/
def recSubExclPage (fl : EvictFlags) (slotSt : RefState) (page : Page) (snaps : Snaps) :
    Option (Nat × RefState × Snaps) :=
  if !(page.recFlags.empty || page.recFlags.split || page.recFlags.splitMerge) then
    Option.some (1, slotSt, snaps)
  else
    match (if fl.single then Option.some (0, slotSt, snaps)
           else hazardExclusive fl.wait page.id snaps) with
    | Option.none => Option.none
    | Option.some (r, st', sn') =>
      if r ≠ 0 then Option.some (r, st', sn')
      else if page.recFlags.splitMerge then Option.some (0, st', sn')
      else if (page.recFlags.split || page.recFlags.empty) && !page.modified then Option.some (0, st', sn')
      else Option.some (1, st', sn')

mutual
/-- __rec_sub_excl_col: walk a column-store internal page's subtree, locking
mergeable children (recursing into column-internal children) and tracking the
last successfully locked page in `last`. -/
def recSubExclCol (fl : EvictFlags) : Page → Snaps → Option Nat →
    Option (Nat × Page × Snaps × Option Nat)
  | .mk i t r rc f g m md cs, snaps, last =>
    match recSubExclColList fl cs snaps last with
    | Option.none => Option.none
    | Option.some (ret, cs', sn', last') =>
        Option.some (ret, .mk i t r rc f g m md cs', sn', last')

/-- The WT_COL_REF_FOREACH loop body of __rec_sub_excl_col. -/
def recSubExclColList (fl : EvictFlags) : ChildList → Snaps → Option Nat →
    Option (Nat × ChildList × Snaps × Option Nat)
  | .nil, snaps, last => Option.some (0, .nil, snaps, last)
  | .cons st c rest, snaps, last =>
    match st with
    | .locked => Option.some (WT_ERROR, .cons st c rest, snaps, last)
    | .reading => Option.some (WT_ERROR, .cons st c rest, snaps, last)
    | .disk =>
      match recSubExclColList fl rest snaps last with
      | Option.none => Option.none
      | Option.some (ret, rest', sn', l') => Option.some (ret, .cons st c rest', sn', l')
    | .mem =>
      match recSubExclPage fl RefState.mem c snaps with
      | Option.none => Option.none
      | Option.some (r, st', sn1) =>
        if r ≠ 0 then Option.some (r, .cons st' c rest, sn1, last)
        else
          match (if c.ptype = PageType.colInt
                 then recSubExclCol fl c sn1 (Option.some c.id)
                 else Option.some (0, c, sn1, Option.some c.id)) with
          | Option.none => Option.none
          | Option.some (r2, c2, sn2, l2) =>
            if r2 ≠ 0 then Option.some (r2, .cons st' c2 rest, sn2, l2)
            else
              match recSubExclColList fl rest sn2 l2 with
              | Option.none => Option.none
              | Option.some (r3, rest', sn3, l3) =>
                  Option.some (r3, .cons st' c2 rest', sn3, l3)
end

mutual
/-- __rec_sub_excl_row: walk a row-store internal page's subtree, locking
mergeable children (recursing into row-internal children) and tracking the
last successfully locked page in `last`. -/
def recSubExclRow (fl : EvictFlags) : Page → Snaps → Option Nat →
    Option (Nat × Page × Snaps × Option Nat)
  | .mk i t r rc f g m md cs, snaps, last =>
    match recSubExclRowList fl cs snaps last with
    | Option.none => Option.none
    | Option.some (ret, cs', sn', last') =>
        Option.some (ret, .mk i t r rc f g m md cs', sn', last')

/-- The WT_ROW_REF_FOREACH loop body of __rec_sub_excl_row. -/
def recSubExclRowList (fl : EvictFlags) : ChildList → Snaps → Option Nat →
    Option (Nat × ChildList × Snaps × Option Nat)
  | .nil, snaps, last => Option.some (0, .nil, snaps, last)
  | .cons st c rest, snaps, last =>
    match st with
    | .locked => Option.some (WT_ERROR, .cons st c rest, snaps, last)
    | .reading => Option.some (WT_ERROR, .cons st c rest, snaps, last)
    | .disk =>
      match recSubExclRowList fl rest snaps last with
      | Option.none => Option.none
      | Option.some (ret, rest', sn', l') => Option.some (ret, .cons st c rest', sn', l')
    | .mem =>
      match recSubExclPage fl RefState.mem c snaps with
      | Option.none => Option.none
      | Option.some (r, st', sn1) =>
        if r ≠ 0 then Option.some (r, .cons st' c rest, sn1, last)
        else
          match (if c.ptype = PageType.rowInt
                 then recSubExclRow fl c sn1 (Option.some c.id)
                 else Option.some (0, c, sn1, Option.some c.id)) with
          | Option.none => Option.none
          | Option.some (r2, c2, sn2, l2) =>
            if r2 ≠ 0 then Option.some (r2, .cons st' c2 rest, sn2, l2)
            else
              match recSubExclRowList fl rest sn2 l2 with
              | Option.none => Option.none
              | Option.some (r3, rest', sn3, l3) =>
                  Option.some (r3, .cons st' c2 rest', sn3, l3)
end

mutual
/-- __rec_sub_excl_col_clear: restore every visited child slot to WT_REF_MEM,
in the review walk's traversal order, stopping right after visiting the
`last` watermark page.  First component: the C return (1 = watermark reached);
second: whether every WT_ASSERT(state == WT_REF_LOCKED) along the visit held;
third: the updated slot array. -/
def recSubExclColClear : Page → Option Nat → Bool × Bool × Page
  | .mk i t r rc f g m md cs, last =>
    match recSubExclColClearList cs last with
    | (stop, ok, cs') => (stop, ok, .mk i t r rc f g m md cs')

/-- The WT_COL_REF_FOREACH loop body of __rec_sub_excl_col_clear. -/
def recSubExclColClearList : ChildList → Option Nat → Bool × Bool × ChildList
  | .nil, _ => (false, true, .nil)
  | .cons st c rest, last =>
    let a0 := decide (st = RefState.locked)
    if Option.some c.id = last then (true, a0, .cons RefState.mem c rest)
    else if c.ptype = PageType.colInt then
      match recSubExclColClear c last with
      | (stop1, ok1, c') =>
        if stop1 then (true, a0 && ok1, .cons RefState.mem c' rest)
        else
          match recSubExclColClearList rest last with
          | (stop2, ok2, rest') => (stop2, a0 && ok1 && ok2, .cons RefState.mem c' rest')
    else
      match recSubExclColClearList rest last with
      | (stop2, ok2, rest') => (stop2, a0 && ok2, .cons RefState.mem c rest')
end

mutual
/-- __rec_sub_excl_row_clear: row-store version of the unlock walk. -/
def recSubExclRowClear : Page → Option Nat → Bool × Bool × Page
  | .mk i t r rc f g m md cs, last =>
    match recSubExclRowClearList cs last with
    | (stop, ok, cs') => (stop, ok, .mk i t r rc f g m md cs')

/-- The WT_ROW_REF_FOREACH loop body of __rec_sub_excl_row_clear. -/
def recSubExclRowClearList : ChildList → Option Nat → Bool × Bool × ChildList
  | .nil, _ => (false, true, .nil)
  | .cons st c rest, last =>
    let a0 := decide (st = RefState.locked)
    if Option.some c.id = last then (true, a0, .cons RefState.mem c rest)
    else if c.ptype = PageType.rowInt then
      match recSubExclRowClear c last with
      | (stop1, ok1, c') =>
        if stop1 then (true, a0 && ok1, .cons RefState.mem c' rest)
        else
          match recSubExclRowClearList rest last with
          | (stop2, ok2, rest') => (stop2, a0 && ok1 && ok2, .cons RefState.mem c' rest')
    else
      match recSubExclRowClearList rest last with
      | (stop2, ok2, rest') => (stop2, a0 && ok2, .cons RefState.mem c rest')
end

/-- __rec_sub_excl_clear: release exclusive access after a failed (or
abandoned) review.  No-op under WT_REC_SINGLE.  Unlocks the candidate's own
parent ref first, then, unless the candidate is itself the watermark,
dispatches the per-type unlock walk.  Returns the parent ref state, the
updated subtree, and whether every WT_ASSERT along the way held. -/
def recSubExclClear (fl : EvictFlags) (prSt : RefState) (page : Page) (last : Option Nat) :
    RefState × Page × Bool :=
  if fl.single then (prSt, page, true)
  else
    let a0 := decide (prSt = RefState.locked)
    if Option.some page.id = last then (RefState.mem, page, a0)
    else
      match page.ptype with
      | PageType.colInt =>
        match recSubExclColClear page last with
        | (_, ok, p') => (RefState.mem, p', a0 && ok)
      | PageType.rowInt =>
        match recSubExclRowClear page last with
        | (_, ok, p') => (RefState.mem, p', a0 && ok)
      | PageType.leaf => (RefState.mem, page, a0)

/-- __rec_review: get exclusive access to the candidate page (unless
WT_REC_SINGLE), walk its subtree, and on failure release every lock up to the
watermark.  Returns (ret, parent ref state, subtree, remaining snapshots,
last-locked watermark, assert flag). -/
def recReview (fl : EvictFlags) (prSt : RefState) (page : Page) (snaps : Snaps) :
    Option (Nat × RefState × Page × Snaps × Option Nat × Bool) :=
  match (if fl.single then Option.some (0, prSt, snaps, (Option.none : Option Nat))
         else
           match hazardExclusive fl.wait page.id snaps with
           | Option.none => Option.none
           | Option.some (r, st', sn') => Option.some (r, st', sn', Option.some page.id)) with
  | Option.none => Option.none
  | Option.some (r0, st1, sn1, last0) =>
    if r0 ≠ 0 then Option.some (r0, st1, page, sn1, Option.none, true)
    else
      match (match page.ptype with
             | PageType.colInt => recSubExclCol fl page sn1 last0
             | PageType.rowInt => recSubExclRow fl page sn1 last0
             | PageType.leaf => Option.some (0, page, sn1, last0)) with
      | Option.none => Option.none
      | Option.some (ret, p', sn', last') =>
        if ret ≠ 0 then
          match recSubExclClear fl st1 p' last' with
          | (st2, p2, ok) => Option.some (ret, st2, p2, sn', last', ok)
        else Option.some (0, st1, p', sn', last', true)


/-- Return code of __wt_rec_track_discard per page id (external collaborator);
0 = success. -/
abbrev TrackOracle := Nat → Nat

/-- __rec_discard_page: if the page has a modify record, resolve its tracked
objects (__wt_rec_track_discard, which may fail); then __wt_page_out discards
the page, recorded by appending its id to the discard trace. -/
def recDiscardPage (tr : TrackOracle) (p : Page) (acc : List Nat) : Nat × List Nat :=
  match p.mod with
  | PageMod.none => (0, acc ++ [p.id])
  | _ =>
    let e := tr p.id
    if e ≠ 0 then (e, acc) else (0, acc ++ [p.id])

/-- Modelled from the spec: the WT_ROW_REF_PAGE macro of btree.h (a file of this
repository not under src/) applied to a column reference slot, exactly as
__rec_sub_discard_col does at its `page = WT_ROW_REF_PAGE(cref)` line.  Per the
spec's data model (§3), both reference-slot types begin with the same embedded
Ref carrying the page pointer, so the row accessor applied to a column slot
reads that slot's page field. -/
abbrev wtRowRefPageOnColSlot (_state : RefState) (child : Page) : Page := child

/-- Modelled from the spec: the WT_COL_REF_PAGE macro of btree.h (not under
src/): a column reference slot's page pointer (spec §3: a Ref carries a page
pointer valid while in memory). -/
abbrev wtColRefPage (_state : RefState) (child : Page) : Page := child

mutual
/-- __rec_sub_discard_col: discard the column-store pages merged into an
evicted page: every non-DISK child, descendants first; the child page is
extracted with the row-store accessor WT_ROW_REF_PAGE (see
`wtRowRefPageOnColSlot`).  Returns (return code, discard trace). -/
def recSubDiscardCol (tr : TrackOracle) : Page → List Nat → Nat × List Nat
  | .mk _ _ _ _ _ _ _ _ cs, acc => recSubDiscardColList tr cs acc

/-- The WT_COL_REF_FOREACH loop body of __rec_sub_discard_col. -/
def recSubDiscardColList (tr : TrackOracle) : ChildList → List Nat → Nat × List Nat
  | .nil, acc => (0, acc)
  | .cons st c rest, acc =>
    if st ≠ RefState.disk then
      match (if (wtRowRefPageOnColSlot st c).ptype = PageType.colInt
             then recSubDiscardCol tr (wtRowRefPageOnColSlot st c) acc
             else (0, acc)) with
      | (e1, acc1) =>
        if e1 ≠ 0 then (e1, acc1)
        else
          match recDiscardPage tr (wtRowRefPageOnColSlot st c) acc1 with
          | (e2, acc2) =>
            if e2 ≠ 0 then (e2, acc2)
            else recSubDiscardColList tr rest acc2
    else recSubDiscardColList tr rest acc
end

mutual
/-- The column discard walk as it would read with the column-store accessor
WT_COL_REF_PAGE in place of the punned WT_ROW_REF_PAGE: the comparison
definition for the refinement claim about __rec_sub_discard_col. -/
def recSubDiscardColSpec (tr : TrackOracle) : Page → List Nat → Nat × List Nat
  | .mk _ _ _ _ _ _ _ _ cs, acc => recSubDiscardColSpecList tr cs acc

/-- Loop body of `recSubDiscardColSpec`. -/
def recSubDiscardColSpecList (tr : TrackOracle) : ChildList → List Nat → Nat × List Nat
  | .nil, acc => (0, acc)
  | .cons st c rest, acc =>
    if st ≠ RefState.disk then
      match (if (wtColRefPage st c).ptype = PageType.colInt
             then recSubDiscardColSpec tr (wtColRefPage st c) acc
             else (0, acc)) with
      | (e1, acc1) =>
        if e1 ≠ 0 then (e1, acc1)
        else
          match recDiscardPage tr (wtColRefPage st c) acc1 with
          | (e2, acc2) =>
            if e2 ≠ 0 then (e2, acc2)
            else recSubDiscardColSpecList tr rest acc2
    else recSubDiscardColSpecList tr rest acc
end

mutual
/-- __rec_sub_discard_row: discard the row-store pages merged into an evicted
page: every non-DISK child, descendants first, via WT_ROW_REF_PAGE. -/
def recSubDiscardRow (tr : TrackOracle) : Page → List Nat → Nat × List Nat
  | .mk _ _ _ _ _ _ _ _ cs, acc => recSubDiscardRowList tr cs acc

/-- The WT_ROW_REF_FOREACH loop body of __rec_sub_discard_row. -/
def recSubDiscardRowList (tr : TrackOracle) : ChildList → List Nat → Nat × List Nat
  | .nil, acc => (0, acc)
  | .cons st c rest, acc =>
    if st ≠ RefState.disk then
      match (if c.ptype = PageType.rowInt then recSubDiscardRow tr c acc else (0, acc)) with
      | (e1, acc1) =>
        if e1 ≠ 0 then (e1, acc1)
        else
          match recDiscardPage tr c acc1 with
          | (e2, acc2) =>
            if e2 ≠ 0 then (e2, acc2)
            else recSubDiscardRowList tr rest acc2
    else recSubDiscardRowList tr rest acc
end

/-- __rec_sub_discard: dispatch the merged-descendant discard walk on the
evicted page's type. -/
def recSubDiscard (tr : TrackOracle) (page : Page) (acc : List Nat) : Nat × List Nat :=
  match page.ptype with
  | PageType.colInt => recSubDiscardCol tr page acc
  | PageType.rowInt => recSubDiscardRow tr page acc
  | PageType.leaf => (0, acc)

/-- One result of the external reconciler __wt_rec_write: an error, or success
stamping the page with the corresponding outcome (WT_PAGE_REC_* flag plus
modify union member; none for clean). -/
inductive WriteResult where
  | err (e : Nat)
  | clean
  | empty
  | replace (addr size : Nat)
  | split (next : Page)

/-- Apply one __wt_rec_write outcome to a page: on success the page carries
exactly the outcome's REC flag (or none for clean), the matching modify union
member, and is no longer dirty; on error the page is unchanged. -/
def applyWrite : WriteResult → Page → Nat × Page
  | .err e, p => (e, p)
  | .clean, p => (0, (p.withRec RecFlags.clear).withModified false)
  | .empty, p => (0, ((p.withRec RecFlags.emptyOnly).withModified false).withMod PageMod.blank)
  | .replace a s, p =>
      (0, ((p.withRec RecFlags.replaceOnly).withModified false).withMod (PageMod.off a s))
  | .split np, p =>
      (0, ((p.withRec RecFlags.splitOnly).withModified false).withMod (PageMod.split np))

/-- __wt_page_set_modified: allocate the modify record if missing and mark the
page dirty (modelled as infallible). -/
def pageSetModified (p : Page) : Page :=
  (match p.mod with
   | PageMod.none => p.withMod PageMod.blank
   | _ => p).withModified true

/-- btree->root_page: the tree's root reference (address, size, page pointer). -/
structure BTreeRoot where
  addr : Nat
  size : Nat
  pageId : Option Nat
deriving DecidableEq, Repr

/-- The candidate page's parent_ref (a WT_REF slot in its parent, or the
btree's root ref for the root page). -/
structure ParentRef where
  state : RefState
  addr : Nat
  size : Nat
  pageId : Option Nat
deriving DecidableEq, Repr

/-- __rec_root_split: iteratively write a freshly split root page: mark it
modified, clear its REC flags, reconcile it; on REC_REPLACE install the new
on-disk root address (root page pointer NULL) and stop; on REC_SPLIT descend
into the newly produced page; discard the written page each iteration.  The
loop consumes one WriteResult per iteration; Option.none models an exhausted
write oracle. -/
def recRootSplit (tr : TrackOracle) : List WriteResult → BTreeRoot → Page → List Nat →
    Option (Nat × BTreeRoot × List WriteResult × List Nat)
  | [], _, _, _ => Option.none
  | w :: ws, root, page, acc =>
    let p1 := (pageSetModified page).withRec RecFlags.clear
    match applyWrite w p1 with
    | (e, p2) =>
      if e ≠ 0 then Option.some (e, root, ws, acc)
      else if p2.recFlags = RecFlags.replaceOnly then
        let root' : BTreeRoot := ⟨p2.modOffAddr, p2.modOffSize, Option.none⟩
        match recDiscardPage tr p2 acc with
        | (e2, acc2) =>
          if e2 ≠ 0 then Option.some (e2, root', ws, acc2)
          else Option.some (0, root', ws, acc2)
      else if p2.recFlags = RecFlags.splitOnly then
        match recDiscardPage tr p2 acc with
        | (e2, acc2) =>
          if e2 ≠ 0 then Option.some (e2, root, ws, acc2)
          else recRootSplit tr ws root p2.modSplitPage acc2
      else Option.some (WT_ERROR, root, ws, acc)

/-- __rec_parent_clean_update: point the parent ref at nothing (page = NULL,
state = WT_REF_DISK; addr and size untouched) and discard the page. -/
def recParentCleanUpdate (tr : TrackOracle) (pr : ParentRef) (page : Page) :
    Nat × ParentRef × List Nat :=
  let pr' : ParentRef := { pr with pageId := Option.none, state := RefState.disk }
  match recDiscardPage tr page [] with
  | (e, acc) => (e, pr', acc)

/-- Result of __rec_parent_dirty_update: return code, parent ref, tree root,
remaining write oracle, discard trace, subtree, and the WT_ASSERT record of
any unlock walk it ran. -/
structure DirtyOut where
  ret : Nat
  pr : ParentRef
  root : BTreeRoot
  writes : List WriteResult
  discards : List Nat
  page : Page
  clearOk : Bool

/-- The common tail of __rec_parent_dirty_update after the switch: discard the
pages merged into the evicted page, then the page itself. -/
def dirtyUpdateTail (tr : TrackOracle) (ws : List WriteResult) (root : BTreeRoot)
    (pr : ParentRef) (page : Page) (acc : List Nat) : DirtyOut :=
  match recSubDiscard tr page acc with
  | (e1, acc1) =>
    if e1 ≠ 0 then ⟨e1, pr, root, ws, acc1, page, true⟩
    else
      match recDiscardPage tr page acc1 with
      | (e2, acc2) => ⟨e2, pr, root, ws, acc2, page, true⟩

/-- __rec_parent_dirty_update: dispatch on the page's REC flags.
REC_EMPTY root: reset the root address to WT_ADDR_INVALID and fall through to
the discards; REC_EMPTY non-root: release all locks (unlock walk, no
watermark) and return 0 without discarding or updating the parent ref.
REC_REPLACE: install the replacement address in the parent ref.
REC_SPLIT root: run __rec_root_split, then publish WT_REF_DISK;
REC_SPLIT non-root: point the parent ref at the new internal page, WT_REF_MEM.
Any other flag combination: WT_ILLEGAL_VALUE. -/
def recParentDirtyUpdate (fl : EvictFlags) (tr : TrackOracle) (ws : List WriteResult)
    (root : BTreeRoot) (pr : ParentRef) (page : Page) : Option DirtyOut :=
  if page.recFlags = RecFlags.emptyOnly then
    if page.isRoot then
      Option.some (dirtyUpdateTail tr ws root
        { pr with addr := WT_ADDR_INVALID, pageId := Option.none, state := RefState.disk }
        page [])
    else
      match recSubExclClear fl pr.state page Option.none with
      | (st', p', ok) => Option.some ⟨0, { pr with state := st' }, root, ws, [], p', ok⟩
  else if page.recFlags = RecFlags.replaceOnly then
    Option.some (dirtyUpdateTail tr ws root
      { pr with addr := page.modOffAddr, size := page.modOffSize,
                pageId := Option.none, state := RefState.disk }
      page [])
  else if page.recFlags = RecFlags.splitOnly then
    if page.isRoot then
      match recRootSplit tr ws root page.modSplitPage [] with
      | Option.none => Option.none
      | Option.some (e, root', ws', acc') =>
        if e ≠ 0 then Option.some ⟨e, pr, root', ws', acc', page, true⟩
        else Option.some (dirtyUpdateTail tr ws' root' { pr with state := RefState.disk } page acc')
    else
      Option.some (dirtyUpdateTail tr ws root
        { pr with pageId := Option.some page.modSplitPage.id, state := RefState.mem }
        page [])
  else Option.some ⟨WT_ERROR, pr, root, ws, [], page, true⟩

/-- Observable outcome of __wt_rec_evict: return code, the candidate's parent
ref, the candidate subtree, the btree root ref, the ordered discard trace,
the unconsumed hazard snapshots and write results, and the WT_ASSERT record
of any unlock walk. -/
structure EvictOut where
  ret : Nat
  pr : ParentRef
  page : Page
  root : BTreeRoot
  discards : List Nat
  snaps : Snaps
  writes : List WriteResult
  clearOk : Bool

/-- The WT_PAGE_FORCE_EVICT handling of __wt_rec_evict: forced eviction turns
on WT_REC_WAIT. -/
def evictFlagsOf (fl0 : EvictFlags) (page : Page) : EvictFlags :=
  if page.forceEvict then { fl0 with wait := true } else fl0

/-- The WT_PAGE_FORCE_EVICT handling of __wt_rec_evict: the marker is cleared
(__wt_evict_force_clear). -/
def evictPageOf (page : Page) : Page :=
  if page.forceEvict then page.withForceEvict false else page

/-- The optional write step of __wt_rec_evict: if the page is dirty, hand it to
__wt_rec_write (consuming the next WriteResult); Option.none models an
exhausted write oracle. -/
def evictWriteStep (p1 : Page) (writes : List WriteResult) :
    Option ((Nat × Page) × List WriteResult) :=
  if p1.modified then
    match writes with
    | [] => Option.none
    | w :: ws => Option.some (applyWrite w p1, ws)
  else Option.some ((0, p1), writes)

/-- __wt_rec_evict: the eviction driver.  Merge-split pages are refused
quietly (read-generation bump, parent ref back to WT_REF_MEM, return 0).
FORCE_EVICT turns on WT_REC_WAIT and clears the marker.  Then review; write
if dirty (write failure releases all locks via the unlock walk with no
watermark and surfaces the error); then the clean or dirty parent update
(whose errors are surfaced without any unlock walk). -/
def wtRecEvict (fl0 : EvictFlags) (tr : TrackOracle) (cacheGen : Nat) (root : BTreeRoot)
    (pr : ParentRef) (page : Page) (snaps : Snaps) (writes : List WriteResult) :
    Option EvictOut :=
  if page.recFlags.splitMerge then
    Option.some ⟨0, { pr with state := RefState.mem }, page.withReadGen cacheGen, root,
                 [], snaps, writes, true⟩
  else
    let fl := evictFlagsOf fl0 page
    match recReview fl pr.state (evictPageOf page) snaps with
    | Option.none => Option.none
    | Option.some (r, st1, p1, sn1, _last1, ok1) =>
      if r ≠ 0 then Option.some ⟨r, { pr with state := st1 }, p1, root, [], sn1, writes, ok1⟩
      else
        match evictWriteStep p1 writes with
        | Option.none => Option.none
        | Option.some ((e, p2), ws2) =>
          if e ≠ 0 then
            match recSubExclClear fl st1 p2 Option.none with
            | (st2, p3, ok2) => Option.some ⟨e, { pr with state := st2 }, p3, root, [], sn1, ws2, ok2⟩
          else if p2.recFlags = RecFlags.clear then
            match recParentCleanUpdate tr { pr with state := st1 } p2 with
            | (e2, pr2, acc) => Option.some ⟨e2, pr2, p2, root, acc, sn1, ws2, true⟩
          else
            match recParentDirtyUpdate fl tr ws2 root { pr with state := st1 } p2 with
            | Option.none => Option.none
            | Option.some d =>
                Option.some ⟨d.ret, d.pr, d.page, d.root, d.discards, sn1, d.writes, d.clearOk⟩

/-! State predicates used by the lock-release theorems, and concrete inputs
used by the per-claim evaluation theorems. -/

mutual
/-- No reference slot anywhere in the subtree is in state WT_REF_LOCKED. -/
def noLockedPage : Page → Bool
  | .mk _ _ _ _ _ _ _ _ cs => noLockedList cs

/-- Slot-array version of `noLockedPage`. -/
def noLockedList : ChildList → Bool
  | .nil => true
  | .cons st c rest =>
      decide (st ≠ RefState.locked) && noLockedPage c && noLockedList rest
end

mutual
/-- Every LOCKED slot of the subtree lies on the column walk's footprint: the
unlock walk `recSubExclColClear` (which recurses only into column-internal
children) visits every slot it would need to unlock.  Concretely: the subtree
of every non-column-internal child holds no LOCKED slot. -/
def colFootOkPage : Page → Bool
  | .mk _ _ _ _ _ _ _ _ cs => colFootOkList cs

/-- Slot-array version of `colFootOkPage`. -/
def colFootOkList : ChildList → Bool
  | .nil => true
  | .cons _ c rest =>
      (if c.ptype = PageType.colInt then colFootOkPage c else noLockedPage c) &&
      colFootOkList rest
end

mutual
/-- Row-store version of `colFootOkPage`. -/
def rowFootOkPage : Page → Bool
  | .mk _ _ _ _ _ _ _ _ cs => rowFootOkList cs

/-- Slot-array version of `rowFootOkPage`. -/
def rowFootOkList : ChildList → Bool
  | .nil => true
  | .cons _ c rest =>
      (if c.ptype = PageType.rowInt then rowFootOkPage c else noLockedPage c) &&
      rowFootOkList rest
end

/-- Every LOCKED slot of the page lies on the footprint of the unlock walk the
page's type dispatches to. -/
def footOkTop (p : Page) : Bool :=
  match p.ptype with
  | PageType.colInt => colFootOkPage p
  | PageType.rowInt => rowFootOkPage p
  | PageType.leaf => noLockedPage p

/-- The ref state of an internal page's first child slot (observation helper
for the concrete-input theorems). -/
def firstSlotState (p : Page) : Option RefState :=
  match p.children with
  | .nil => Option.none
  | .cons st _ _ => Option.some st

/-- A leaf page with the given id, REC flags, dirty bit and modify record. -/
def leafPage (n : Nat) (rc : RecFlags) (m : Bool) (md : PageMod) : Page :=
  .mk n PageType.leaf false rc false 0 m md .nil

/-- Concrete input: a row-internal eviction candidate (id 10) whose only child
(id 1) is in memory and carries WT_PAGE_REC_SPLIT while dirty, so the review
walk locks it and then fails the careful mergeability test. -/
def pageLockedDirtySplitChild : Page :=
  .mk 10 PageType.rowInt false RecFlags.clear false 0 false PageMod.none
    (.cons RefState.mem (leafPage 1 RecFlags.splitOnly true PageMod.blank) .nil)

/-- Concrete input: a column-internal eviction candidate (id 0) whose first
child (id 1) is on DISK, second child (id 2) is a clean REC_SPLIT page the
review walk locks, and third child (id 3) is an unmergeable in-memory page
that makes review fail after the watermark has passed the DISK slot. -/
def pageDiskChildBeforeWatermark : Page :=
  .mk 0 PageType.colInt false RecFlags.clear false 0 false PageMod.none
    (.cons RefState.disk (leafPage 1 RecFlags.clear false PageMod.none)
      (.cons RefState.mem (leafPage 2 RecFlags.splitOnly false PageMod.blank)
        (.cons RefState.mem (leafPage 3 RecFlags.clear false PageMod.none) .nil)))

/-- Concrete input: a clean row-internal candidate (id 20) whose only child
(id 21) is an always-mergeable REC_SPLIT_MERGE page; review locks the child,
and the clean parent update then hits a failing __wt_rec_track_discard. -/
def pageCleanWithMergeChild : Page :=
  .mk 20 PageType.rowInt false RecFlags.clear false 0 false PageMod.blank
    (.cons RefState.mem (leafPage 21 RecFlags.splitMergeOnly false PageMod.none) .nil)

/-- Track-discard oracle that fails with 7 on page id 20 and succeeds
elsewhere. -/
def trFailAt20 : TrackOracle := fun n => if n = 20 then 7 else 0

/-- A root chain page for the root-split scenarios (row-internal, root). -/
def rootChainPage (n : Nat) : Page :=
  .mk n PageType.rowInt true RecFlags.clear false 0 false PageMod.none .nil

/-- Concrete input: a non-root row-internal REC_EMPTY candidate (id 40) whose
only child (id 41) is on DISK; the empty-non-root abort path runs the unlock
walk over it. -/
def pageEmptyWithDiskChild : Page :=
  .mk 40 PageType.rowInt false RecFlags.emptyOnly false 0 false PageMod.blank
    (.cons RefState.disk (leafPage 41 RecFlags.clear false PageMod.none) .nil)

/-! Basic lemmas about the field updaters. -/

@[simp] theorem Page.id_withReadGen (p : Page) (g : Nat) : (p.withReadGen g).id = p.id := by
  cases p; rfl

@[simp] theorem Page.readGen_withReadGen (p : Page) (g : Nat) : (p.withReadGen g).readGen = g := by
  cases p; rfl

@[simp] theorem Page.id_withRec (p : Page) (rc : RecFlags) : (p.withRec rc).id = p.id := by
  cases p; rfl

@[simp] theorem Page.id_withModified (p : Page) (m : Bool) : (p.withModified m).id = p.id := by
  cases p; rfl

@[simp] theorem Page.id_withMod (p : Page) (md : PageMod) : (p.withMod md).id = p.id := by
  cases p; rfl

@[simp] theorem Page.id_pageSetModified (p : Page) : (pageSetModified p).id = p.id := by
  cases p with
  | mk i t r rc f g m md cs => cases md <;> rfl

@[simp] theorem Page.ptype_withForceEvict (p : Page) (b : Bool) :
    (p.withForceEvict b).ptype = p.ptype := by
  cases p; rfl

@[simp] theorem Page.children_withForceEvict (p : Page) (b : Bool) :
    (p.withForceEvict b).children = p.children := by
  cases p; rfl

@[simp] theorem noLockedPage_withForceEvict (p : Page) (b : Bool) :
    noLockedPage (p.withForceEvict b) = noLockedPage p := by
  cases p; rfl

@[simp] theorem Page.recFlags_withRec (p : Page) (rc : RecFlags) :
    (p.withRec rc).recFlags = rc := by
  cases p; rfl

@[simp] theorem Page.recFlags_withModified (p : Page) (m : Bool) :
    (p.withModified m).recFlags = p.recFlags := by
  cases p; rfl

@[simp] theorem Page.recFlags_withMod (p : Page) (md : PageMod) :
    (p.withMod md).recFlags = p.recFlags := by
  cases p; rfl

@[simp] theorem Page.mod_withMod (p : Page) (md : PageMod) : (p.withMod md).mod = md := by
  cases p; rfl

/-- C7: calling evict on a page flagged WT_PAGE_REC_SPLIT_MERGE returns 0 after
only bumping the page's read generation to the cache read generation and
setting the parent ref state to WT_REF_MEM: no review (hazard snapshots
unconsumed), no write (write results unconsumed), no other parent-ref field
changed, no discard, the subtree otherwise untouched, and the tree root
untouched. -/
theorem c7_split_merge_noop (fl0 : EvictFlags) (tr : TrackOracle) (cacheGen : Nat)
    (root : BTreeRoot) (pr : ParentRef) (page : Page) (snaps : Snaps)
    (writes : List WriteResult) (h : page.recFlags.splitMerge = true) :
    wtRecEvict fl0 tr cacheGen root pr page snaps writes =
      Option.some ⟨0, { pr with state := RefState.mem }, page.withReadGen cacheGen, root,
                   [], snaps, writes, true⟩ := by
  simp [wtRecEvict, h]

/-- Witness for `c7_split_merge_noop` at a concrete merge-split page. -/
theorem c7_split_merge_noop_witness :
    (leafPage 5 RecFlags.splitMergeOnly false PageMod.none).recFlags.splitMerge = true ∧
    wtRecEvict ⟨false, false⟩ (fun _ => 0) 99 ⟨0, 0, Option.none⟩
        ⟨RefState.locked, 7, 9, Option.some 5⟩
        (leafPage 5 RecFlags.splitMergeOnly false PageMod.none) [] [] =
      Option.some ⟨0, ⟨RefState.mem, 7, 9, Option.some 5⟩,
                   (leafPage 5 RecFlags.splitMergeOnly false PageMod.none).withReadGen 99,
                   ⟨0, 0, Option.none⟩, [], [], [], true⟩ :=
  ⟨rfl, c7_split_merge_noop ⟨false, false⟩ (fun _ => 0) 99 ⟨0, 0, Option.none⟩
    ⟨RefState.locked, 7, 9, Option.some 5⟩
    (leafPage 5 RecFlags.splitMergeOnly false PageMod.none) [] [] rfl⟩

/-- C1 (failing input): on this tree the review walk locks the dirty REC_SPLIT
child, the careful test then rejects it, and evict returns Busy (1) with the
child's ref still in state WT_REF_LOCKED: the unlock walk stopped at the
watermark, which was never advanced to the locked child. -/
theorem c1_locked_child_left_behind :
    firstSlotState pageLockedDirtySplitChild = Option.some RefState.mem ∧
    (wtRecEvict ⟨false, false⟩ (fun _ => 0) 0 ⟨0, 0, Option.none⟩
        ⟨RefState.mem, 0, 0, Option.some 10⟩ pageLockedDirtySplitChild [[], []] []).map
      (fun o => (o.ret, firstSlotState o.page, noLockedPage o.page, o.pr.state)) =
      Option.some (1, Option.some RefState.locked, false, RefState.mem) := by
  constructor
  · rfl
  · rfl

/-- C2 (failing input): review on this tree skips the DISK first child, locks
the clean REC_SPLIT second child (the watermark), and fails on the third; the
unlock walk then visits the DISK slot the reviewer never locked, violates its
own WT_ASSERT(state == WT_REF_LOCKED) there, and flips that slot from
WT_REF_DISK to WT_REF_MEM, so the Busy return does not restore the pre-call
state. -/
theorem c2_disk_child_clobbered :
    firstSlotState pageDiskChildBeforeWatermark = Option.some RefState.disk ∧
    (wtRecEvict ⟨false, false⟩ (fun _ => 0) 0 ⟨0, 0, Option.none⟩
        ⟨RefState.mem, 0, 0, Option.some 0⟩ pageDiskChildBeforeWatermark [[], []] []).map
      (fun o => (o.ret, firstSlotState o.page, o.clearOk)) =
      Option.some (1, Option.some RefState.mem, false) := by
  constructor
  · rfl
  · rfl

/-- Forced hazard acquisition never returns Busy: any terminating outcome is
return 0 with the ref left LOCKED. -/
theorem hazardExclusive_force_ok (pg : Nat) :
    ∀ (snaps : Snaps) (out : Nat × RefState × Snaps),
      hazardExclusive true pg snaps = Option.some out →
      out.1 = 0 ∧ out.2.1 = RefState.locked
  | [], out, h => by simp [hazardExclusive] at h
  | t :: rest, out, h => by
      by_cases hc : (hazardCopy t).contains pg
      · rw [hazardExclusive, if_pos hc, if_pos rfl] at h
        exact hazardExclusive_force_ok pg rest out h
      · rw [hazardExclusive, if_neg hc] at h
        cases h
        exact ⟨rfl, rfl⟩

/-- Forced hazard acquisition terminates with success exactly when some
snapshot in the stream does not contain the page. -/
theorem hazardExclusive_force_terminates (pg : Nat) :
    ∀ (snaps : Snaps),
      (∃ t ∈ snaps, (hazardCopy t).contains pg = false) ↔
      (∃ rest, hazardExclusive true pg snaps = Option.some (0, RefState.locked, rest))
  | [] => by simp [hazardExclusive]
  | t :: rest => by
      by_cases hc : (hazardCopy t).contains pg
      · rw [hazardExclusive, if_pos hc, if_pos rfl]
        constructor
        · intro ⟨u, hu, hcu⟩
          rcases List.mem_cons.mp hu with h1 | h1
          · rw [h1] at hcu; rw [hcu] at hc; exact absurd hc (by simp)
          · exact (hazardExclusive_force_terminates pg rest).mp ⟨u, h1, hcu⟩
        · intro h
          obtain ⟨u, hu, hcu⟩ := (hazardExclusive_force_terminates pg rest).mpr h
          exact ⟨u, List.mem_cons_of_mem t hu, hcu⟩
      · rw [hazardExclusive, if_neg hc]
        constructor
        · intro _
          exact ⟨rest, rfl⟩
        · intro _
          exact ⟨t, List.mem_cons_self t rest, by simpa using hc⟩

/-- C3: for a ref in state MEM or LOCKED, __hazard_exclusive first flips the
ref to LOCKED and then: with force off it returns 0 with the ref LOCKED
exactly when the page is absent from the fresh snapshot, and otherwise
restores the ref to MEM and returns Busy (1); with force on it retries on a
fresh snapshot each time, never returns Busy (any terminating outcome is 0
with the ref LOCKED), and terminates with success exactly when some snapshot
omits the page. -/
theorem c3_hazard_exclusive_contract (pg : Nat) (st : RefState) (snaps : Snaps)
    (hst : st = RefState.mem ∨ st = RefState.locked) :
    (∀ t rest, snaps = t :: rest →
      hazardExclusive false pg snaps =
        (if (hazardCopy t).contains pg then Option.some (1, RefState.mem, rest)
         else Option.some (0, RefState.locked, rest))) ∧
    (∀ out, hazardExclusive true pg snaps = Option.some out →
      out.1 = 0 ∧ out.2.1 = RefState.locked) ∧
    ((∃ t ∈ snaps, (hazardCopy t).contains pg = false) ↔
      (∃ rest, hazardExclusive true pg snaps = Option.some (0, RefState.locked, rest))) := by
  refine ⟨?_, ?_, ?_⟩
  · intro t rest hsn
    subst hsn
    by_cases hc : (hazardCopy t).contains pg
    · rw [hazardExclusive, if_pos hc, if_neg (by simp), if_pos hc]
    · rw [hazardExclusive, if_neg hc, if_neg hc]
  · exact hazardExclusive_force_ok pg snaps
  · exact hazardExclusive_force_terminates pg snaps

/-- Witness for `c3_hazard_exclusive_contract`: page 5, ref in MEM, a stream
whose first snapshot holds the page and whose second does not. -/
theorem c3_hazard_exclusive_contract_witness :
    (RefState.mem = RefState.mem ∨ RefState.mem = RefState.locked) ∧
    ((∀ t rest, ([[Option.some 5], []] : Snaps) = t :: rest →
      hazardExclusive false 5 [[Option.some 5], []] =
        (if (hazardCopy t).contains 5 then Option.some (1, RefState.mem, rest)
         else Option.some (0, RefState.locked, rest))) ∧
    (∀ out, hazardExclusive true 5 [[Option.some 5], []] = Option.some out →
      out.1 = 0 ∧ out.2.1 = RefState.locked) ∧
    ((∃ t ∈ ([[Option.some 5], []] : Snaps), (hazardCopy t).contains 5 = false) ↔
      (∃ rest, hazardExclusive true 5 [[Option.some 5], []] =
        Option.some (0, RefState.locked, rest)))) :=
  ⟨Or.inl rfl, c3_hazard_exclusive_contract 5 RefState.mem [[Option.some 5], []] (Or.inl rfl)⟩

/-- C4: the two-phase test of __rec_sub_excl_page on an in-memory child, with
the caller not holding the tree (no WT_REC_SINGLE).  (a) If the child's flags
include none of REC_EMPTY, REC_SPLIT, REC_SPLIT_MERGE, it fails (returns 1)
before any lock is taken: the slot state and the hazard-snapshot stream are
untouched.  After the prefilter passes and __hazard_exclusive locks the child:
(b1) a REC_SPLIT_MERGE child is always accepted (returns 0, ref LOCKED),
dirty or clean; (b2) a REC_SPLIT or REC_EMPTY child that is clean is accepted;
(b3) a REC_SPLIT or REC_EMPTY child that is dirty is rejected (returns 1). -/
theorem c4_review_child_two_phase (fl : EvictFlags) (slotSt : RefState) (page : Page)
    (snaps : Snaps) (hs : fl.single = false) :
    ((page.recFlags.empty = false ∧ page.recFlags.split = false ∧
        page.recFlags.splitMerge = false) →
      recSubExclPage fl slotSt page snaps = Option.some (1, slotSt, snaps)) ∧
    (∀ sn', page.recFlags.splitMerge = true →
      hazardExclusive fl.wait page.id snaps = Option.some (0, RefState.locked, sn') →
      recSubExclPage fl slotSt page snaps = Option.some (0, RefState.locked, sn')) ∧
    (∀ sn', page.recFlags.splitMerge = false →
      (page.recFlags.split = true ∨ page.recFlags.empty = true) → page.modified = false →
      hazardExclusive fl.wait page.id snaps = Option.some (0, RefState.locked, sn') →
      recSubExclPage fl slotSt page snaps = Option.some (0, RefState.locked, sn')) ∧
    (∀ sn', page.recFlags.splitMerge = false →
      (page.recFlags.split = true ∨ page.recFlags.empty = true) → page.modified = true →
      hazardExclusive fl.wait page.id snaps = Option.some (0, RefState.locked, sn') →
      recSubExclPage fl slotSt page snaps = Option.some (1, RefState.locked, sn')) := by
  refine ⟨?_, ?_, ?_, ?_⟩
  · intro ⟨h1, h2, h3⟩
    simp [recSubExclPage, h1, h2, h3]
  · intro sn' hm hh
    simp [recSubExclPage, hs, hm, hh]
  · intro sn' hm hse hmod hh
    rcases hse with h | h <;> simp [recSubExclPage, hs, hm, h, hmod, hh]
  · intro sn' hm hse hmod hh
    rcases hse with h | h <;> simp [recSubExclPage, hs, hm, h, hmod, hh]

/-- Witness for `c4_review_child_two_phase`: a dirty REC_SPLIT leaf child with
an empty hazard table (lock succeeds, careful test rejects). -/
theorem c4_review_child_two_phase_witness :
    (⟨false, false⟩ : EvictFlags).single = false ∧
    recSubExclPage ⟨false, false⟩ RefState.mem
        (leafPage 1 RecFlags.splitOnly true PageMod.blank) [[]] =
      Option.some (1, RefState.locked, []) :=
  ⟨rfl, (c4_review_child_two_phase ⟨false, false⟩ RefState.mem
      (leafPage 1 RecFlags.splitOnly true PageMod.blank) [[]] rfl).2.2.2 []
      rfl (Or.inl rfl) rfl rfl⟩

/-- The discard trace of a chain of root-split iterations, with a general
accumulator: each iteration writes the current page (a REC_SPLIT outcome per
chain element, then the final REC_REPLACE), discards it, and follows the
split; the REC_REPLACE iteration installs the new root address and stops. -/
theorem recRootSplit_chain (tr : TrackOracle) (htr : ∀ n, tr n = 0) (a s : Nat) :
    ∀ (chain : List Page) (root : BTreeRoot) (p0 : Page) (acc : List Nat),
      recRootSplit tr (chain.map WriteResult.split ++ [WriteResult.replace a s]) root p0 acc =
        Option.some (0, ⟨a, s, Option.none⟩, [], acc ++ (p0 :: chain).map Page.id)
  | [], root, p0, acc => by
      simp [recRootSplit, applyWrite, recDiscardPage, htr, Page.modOffAddr, Page.modOffSize]
  | c :: cs, root, p0, acc => by
      have ih := recRootSplit_chain tr htr a s cs root c (acc ++ [p0.id])
      simp only [List.map_cons, List.cons_append, recRootSplit, applyWrite,
        recDiscardPage, Page.mod_withMod, Page.recFlags_withMod, Page.recFlags_withModified,
        Page.recFlags_withRec, Page.id_withMod, Page.id_withModified, Page.id_withRec,
        Page.id_pageSetModified, htr]
      simp only [Page.modSplitPage, Page.mod_withMod, htr]
      simp [ih, Page.modSplitPage, Page.mod_withMod]
      all_goals decide

/-- C6: for a root-split chain in which every page reconciles to a further
split except the last, which reconciles to Replace(a, s), __rec_root_split
terminates with return 0, records exactly (a, s) as the tree's root address
with the root page pointer NULL, consumes the whole write sequence, and
discards every page of the chain, one per iteration and in chain order,
including the final Replace page (discard succeeding throughout). -/
theorem c6_root_split_collapse (tr : TrackOracle) (htr : ∀ n, tr n = 0)
    (chain : List Page) (a s : Nat) (root : BTreeRoot) (p0 : Page) :
    recRootSplit tr (chain.map WriteResult.split ++ [WriteResult.replace a s]) root p0 [] =
      Option.some (0, ⟨a, s, Option.none⟩, [], (p0 :: chain).map Page.id) := by
  simpa using recRootSplit_chain tr htr a s chain root p0 []

/-- Witness for `c6_root_split_collapse`: a three-page chain (ids 20, 21, 22)
collapsing to root address (42, 4096). -/
theorem c6_root_split_collapse_witness :
    (∀ n, (fun _ => 0 : TrackOracle) n = 0) ∧
    recRootSplit (fun _ => 0)
        ([rootChainPage 21, rootChainPage 22].map WriteResult.split ++
          [WriteResult.replace 42 4096])
        ⟨0, 0, Option.some 20⟩ (rootChainPage 20) [] =
      Option.some (0, ⟨42, 4096, Option.none⟩, [], [20, 21, 22]) :=
  ⟨fun _ => rfl, by
    simpa using c6_root_split_collapse (fun _ => 0) (fun _ => rfl)
      [rootChainPage 21, rootChainPage 22] 42 4096 ⟨0, 0, Option.some 20⟩ (rootChainPage 20)⟩

mutual
/-- The column discard walk equals its variant written with the column-store
accessor. -/
theorem recSubDiscardCol_eq_spec (tr : TrackOracle) :
    ∀ (p : Page) (acc : List Nat), recSubDiscardCol tr p acc = recSubDiscardColSpec tr p acc
  | .mk i t r rc f g m md cs, acc => by
      rw [recSubDiscardCol, recSubDiscardColSpec]
      exact recSubDiscardColList_eq_spec tr cs acc

/-- Slot-array version of `recSubDiscardCol_eq_spec`. -/
theorem recSubDiscardColList_eq_spec (tr : TrackOracle) :
    ∀ (cs : ChildList) (acc : List Nat),
      recSubDiscardColList tr cs acc = recSubDiscardColSpecList tr cs acc
  | .nil, _ => rfl
  | .cons st c rest, acc => by
      simp only [recSubDiscardColList, recSubDiscardColSpecList,
        recSubDiscardCol_eq_spec tr c, recSubDiscardColList_eq_spec tr rest]
end

/-- C10: the merged-descendant discard walk for column-store internal pages,
which extracts each non-DISK child's page with the row-store accessor
WT_ROW_REF_PAGE applied to a WT_COL_REF, produces exactly the same return code
and the same discard trace (same pages, same order) as the walk written with
the column-store accessor WT_COL_REF_PAGE, because the two accessors agree on
every column reference slot. -/
theorem c10_col_discard_accessor_equiv :
    (∀ (tr : TrackOracle) (p : Page) (acc : List Nat),
      recSubDiscardCol tr p acc = recSubDiscardColSpec tr p acc) ∧
    (∀ (st : RefState) (c : Page), wtRowRefPageOnColSlot st c = wtColRefPage st c) :=
  ⟨fun tr p acc => recSubDiscardCol_eq_spec tr p acc, fun _ _ => rfl⟩

/-- A successful __rec_discard_page discards exactly its page. -/
theorem recDiscardPage_success (tr : TrackOracle) (p : Page) (ds : List Nat)
    (h : recDiscardPage tr p [] = (0, ds)) : ds = [p.id] := by
  unfold recDiscardPage at h
  split at h
  · simpa using (Prod.ext_iff.mp h).2.symm
  · by_cases he : tr p.id ≠ 0
    · simp [he, Prod.ext_iff] at h
    · rw [not_not] at he
      simp [he, Prod.ext_iff] at h
      exact h.symm

/-- C8: a successful eviction of a clean page (no REC flag after review and
the optional write step): the parent ref ends with page = NULL and state =
WT_REF_DISK, its addr and size are untouched, exactly the candidate page is
discarded, and the return is 0. -/
theorem c8_clean_eviction (fl0 : EvictFlags) (tr : TrackOracle) (cacheGen : Nat)
    (root : BTreeRoot) (pr : ParentRef) (page : Page) (snaps : Snaps)
    (writes : List WriteResult) (st1 : RefState) (p1 : Page) (sn1 : Snaps)
    (last1 : Option Nat) (ok1 : Bool) (p2 : Page) (ws2 : List WriteResult) (ds : List Nat)
    (hsm : page.recFlags.splitMerge = false)
    (hrev : recReview (evictFlagsOf fl0 page) pr.state (evictPageOf page) snaps =
      Option.some (0, st1, p1, sn1, last1, ok1))
    (hws : evictWriteStep p1 writes = Option.some ((0, p2), ws2))
    (hcl : p2.recFlags = RecFlags.clear)
    (hds : recDiscardPage tr p2 [] = (0, ds)) :
    (wtRecEvict fl0 tr cacheGen root pr page snaps writes).map
      (fun o => (o.ret, o.pr, o.discards, o.root)) =
      Option.some (0, { pr with state := RefState.disk, pageId := Option.none },
                   [p2.id], root) := by
  have hid := recDiscardPage_success tr p2 ds hds
  subst hid
  simp only [wtRecEvict, hsm, Bool.false_eq_true, if_false, hrev, hws,
    recParentCleanUpdate, hds, hcl, if_pos rfl]
  simp

/-- Witness for `c8_clean_eviction`: the clean-leaf scenario (leaf id 5 with
parent address (7, 9)). -/
theorem c8_clean_eviction_witness :
    (leafPage 5 RecFlags.clear false PageMod.none).recFlags.splitMerge = false ∧
    recReview (evictFlagsOf ⟨false, false⟩ (leafPage 5 RecFlags.clear false PageMod.none))
        RefState.mem (evictPageOf (leafPage 5 RecFlags.clear false PageMod.none)) [[]] =
      Option.some (0, RefState.locked, leafPage 5 RecFlags.clear false PageMod.none, [],
                   Option.some 5, true) ∧
    (wtRecEvict ⟨false, false⟩ (fun _ => 0) 0 ⟨0, 0, Option.none⟩
        ⟨RefState.mem, 7, 9, Option.some 5⟩ (leafPage 5 RecFlags.clear false PageMod.none)
        [[]] []).map (fun o => (o.ret, o.pr, o.discards, o.root)) =
      Option.some (0, ⟨RefState.disk, 7, 9, Option.none⟩, [5], ⟨0, 0, Option.none⟩) :=
  ⟨rfl, rfl, by
    simpa using c8_clean_eviction ⟨false, false⟩ (fun _ => 0) 0 ⟨0, 0, Option.none⟩
      ⟨RefState.mem, 7, 9, Option.some 5⟩ (leafPage 5 RecFlags.clear false PageMod.none)
      [[]] [] RefState.locked (leafPage 5 RecFlags.clear false PageMod.none) []
      (Option.some 5) true (leafPage 5 RecFlags.clear false PageMod.none) [] [5]
      rfl rfl rfl rfl rfl⟩

mutual
/-- A subtree with no LOCKED slot trivially has all LOCKED slots on the column
walk footprint. -/
theorem noLocked_colFootOkPage : ∀ (p : Page), noLockedPage p = true → colFootOkPage p = true
  | .mk _ _ _ _ _ _ _ _ cs, h => by
      rw [noLockedPage] at h
      rw [colFootOkPage]
      exact noLocked_colFootOkList cs h

/-- Slot-array version of `noLocked_colFootOkPage`. -/
theorem noLocked_colFootOkList :
    ∀ (cs : ChildList), noLockedList cs = true → colFootOkList cs = true
  | .nil, _ => rfl
  | .cons st c rest, h => by
      rw [noLockedList] at h
      simp only [Bool.and_eq_true] at h
      obtain ⟨⟨_, hc⟩, hrest⟩ := h
      rw [colFootOkList]
      simp only [Bool.and_eq_true]
      refine ⟨?_, noLocked_colFootOkList rest hrest⟩
      by_cases hcc : c.ptype = PageType.colInt
      · simp [hcc, noLocked_colFootOkPage c hc]
      · simp [hcc, hc]
end

mutual
/-- A subtree with no LOCKED slot trivially has all LOCKED slots on the row
walk footprint. -/
theorem noLocked_rowFootOkPage : ∀ (p : Page), noLockedPage p = true → rowFootOkPage p = true
  | .mk _ _ _ _ _ _ _ _ cs, h => by
      rw [noLockedPage] at h
      rw [rowFootOkPage]
      exact noLocked_rowFootOkList cs h

/-- Slot-array version of `noLocked_rowFootOkPage`. -/
theorem noLocked_rowFootOkList :
    ∀ (cs : ChildList), noLockedList cs = true → rowFootOkList cs = true
  | .nil, _ => rfl
  | .cons st c rest, h => by
      rw [noLockedList] at h
      simp only [Bool.and_eq_true] at h
      obtain ⟨⟨_, hc⟩, hrest⟩ := h
      rw [rowFootOkList]
      simp only [Bool.and_eq_true]
      refine ⟨?_, noLocked_rowFootOkList rest hrest⟩
      by_cases hcc : c.ptype = PageType.rowInt
      · simp [hcc, noLocked_rowFootOkPage c hc]
      · simp [hcc, hc]
end

mutual
/-- With no watermark (last = NULL), the column unlock walk never stops
early. -/
theorem colClear_none_no_stop : ∀ (p : Page), (recSubExclColClear p Option.none).1 = false
  | .mk _ _ _ _ _ _ _ _ cs => by
      have h := colClearList_none_no_stop cs
      rw [recSubExclColClear]
      rcases hres : recSubExclColClearList cs Option.none with ⟨stop, ok, cs'⟩
      rw [hres] at h
      simpa using h

/-- Slot-array version of `colClear_none_no_stop`. -/
theorem colClearList_none_no_stop :
    ∀ (cs : ChildList), (recSubExclColClearList cs Option.none).1 = false
  | .nil => rfl
  | .cons st c rest => by
      have hc := colClear_none_no_stop c
      have hr := colClearList_none_no_stop rest
      rw [recSubExclColClearList]
      rw [if_neg (by simp : ¬(Option.some c.id = Option.none))]
      by_cases hcc : c.ptype = PageType.colInt
      · rw [if_pos hcc]
        rcases h1 : recSubExclColClear c Option.none with ⟨stop1, ok1, c'⟩
        rw [h1] at hc
        simp only at hc
        rw [hc]
        rcases h2 : recSubExclColClearList rest Option.none with ⟨stop2, ok2, rest'⟩
        rw [h2] at hr
        simp only at hr
        simpa using hr
      · rw [if_neg hcc]
        rcases h2 : recSubExclColClearList rest Option.none with ⟨stop2, ok2, rest'⟩
        rw [h2] at hr
        simp only at hr
        simpa using hr
end

mutual
/-- With no watermark (last = NULL), the row unlock walk never stops early. -/
theorem rowClear_none_no_stop : ∀ (p : Page), (recSubExclRowClear p Option.none).1 = false
  | .mk _ _ _ _ _ _ _ _ cs => by
      have h := rowClearList_none_no_stop cs
      rw [recSubExclRowClear]
      rcases hres : recSubExclRowClearList cs Option.none with ⟨stop, ok, cs'⟩
      rw [hres] at h
      simpa using h

/-- Slot-array version of `rowClear_none_no_stop`. -/
theorem rowClearList_none_no_stop :
    ∀ (cs : ChildList), (recSubExclRowClearList cs Option.none).1 = false
  | .nil => rfl
  | .cons st c rest => by
      have hc := rowClear_none_no_stop c
      have hr := rowClearList_none_no_stop rest
      rw [recSubExclRowClearList]
      rw [if_neg (by simp : ¬(Option.some c.id = Option.none))]
      by_cases hcc : c.ptype = PageType.rowInt
      · rw [if_pos hcc]
        rcases h1 : recSubExclRowClear c Option.none with ⟨stop1, ok1, c'⟩
        rw [h1] at hc
        simp only at hc
        rw [hc]
        rcases h2 : recSubExclRowClearList rest Option.none with ⟨stop2, ok2, rest'⟩
        rw [h2] at hr
        simp only at hr
        simpa using hr
      · rw [if_neg hcc]
        rcases h2 : recSubExclRowClearList rest Option.none with ⟨stop2, ok2, rest'⟩
        rw [h2] at hr
        simp only at hr
        simpa using hr
end

mutual
/-- The column unlock walk with no watermark leaves no LOCKED slot, provided
every LOCKED slot lay on its footprint. -/
theorem colClear_none_noLocked : ∀ (p : Page), colFootOkPage p = true →
    noLockedPage (recSubExclColClear p Option.none).2.2 = true
  | .mk _ _ _ _ _ _ _ _ cs, h => by
      rw [colFootOkPage] at h
      have hl := colClearList_none_noLocked cs h
      rw [recSubExclColClear]
      rcases hres : recSubExclColClearList cs Option.none with ⟨stop, ok, cs'⟩
      rw [hres] at hl
      simp only at hl
      simpa [noLockedPage] using hl

/-- Slot-array version of `colClear_none_noLocked`. -/
theorem colClearList_none_noLocked : ∀ (cs : ChildList), colFootOkList cs = true →
    noLockedList (recSubExclColClearList cs Option.none).2.2 = true
  | .nil, _ => rfl
  | .cons st c rest, h => by
      rw [colFootOkList] at h
      simp only [Bool.and_eq_true] at h
      obtain ⟨hc, hrest⟩ := h
      have hr := colClearList_none_noLocked rest hrest
      rw [recSubExclColClearList]
      rw [if_neg (by simp : ¬(Option.some c.id = Option.none))]
      by_cases hcc : c.ptype = PageType.colInt
      · have hcp := colClear_none_noLocked c (by simpa [hcc] using hc)
        have hstop := colClear_none_no_stop c
        rw [if_pos hcc]
        rcases h1 : recSubExclColClear c Option.none with ⟨stop1, ok1, c'⟩
        rw [h1] at hcp hstop
        simp only at hcp hstop
        rw [hstop]
        rcases h2 : recSubExclColClearList rest Option.none with ⟨stop2, ok2, rest'⟩
        rw [h2] at hr
        simp only at hr
        simp [noLockedList, hcp, hr]
      · rw [if_neg hcc]
        rcases h2 : recSubExclColClearList rest Option.none with ⟨stop2, ok2, rest'⟩
        rw [h2] at hr
        simp only at hr
        simp [noLockedList, (by simpa [hcc] using hc : noLockedPage c = true), hr]
end

mutual
/-- The row unlock walk with no watermark leaves no LOCKED slot, provided
every LOCKED slot lay on its footprint. -/
theorem rowClear_none_noLocked : ∀ (p : Page), rowFootOkPage p = true →
    noLockedPage (recSubExclRowClear p Option.none).2.2 = true
  | .mk _ _ _ _ _ _ _ _ cs, h => by
      rw [rowFootOkPage] at h
      have hl := rowClearList_none_noLocked cs h
      rw [recSubExclRowClear]
      rcases hres : recSubExclRowClearList cs Option.none with ⟨stop, ok, cs'⟩
      rw [hres] at hl
      simp only at hl
      simpa [noLockedPage] using hl

/-- Slot-array version of `rowClear_none_noLocked`. -/
theorem rowClearList_none_noLocked : ∀ (cs : ChildList), rowFootOkList cs = true →
    noLockedList (recSubExclRowClearList cs Option.none).2.2 = true
  | .nil, _ => rfl
  | .cons st c rest, h => by
      rw [rowFootOkList] at h
      simp only [Bool.and_eq_true] at h
      obtain ⟨hc, hrest⟩ := h
      have hr := rowClearList_none_noLocked rest hrest
      rw [recSubExclRowClearList]
      rw [if_neg (by simp : ¬(Option.some c.id = Option.none))]
      by_cases hcc : c.ptype = PageType.rowInt
      · have hcp := rowClear_none_noLocked c (by simpa [hcc] using hc)
        have hstop := rowClear_none_no_stop c
        rw [if_pos hcc]
        rcases h1 : recSubExclRowClear c Option.none with ⟨stop1, ok1, c'⟩
        rw [h1] at hcp hstop
        simp only at hcp hstop
        rw [hstop]
        rcases h2 : recSubExclRowClearList rest Option.none with ⟨stop2, ok2, rest'⟩
        rw [h2] at hr
        simp only at hr
        simp [noLockedList, hcp, hr]
      · rw [if_neg hcc]
        rcases h2 : recSubExclRowClearList rest Option.none with ⟨stop2, ok2, rest'⟩
        rw [h2] at hr
        simp only at hr
        simp [noLockedList, (by simpa [hcc] using hc : noLockedPage c = true), hr]
end

/-- The column review walk only replaces the page's slot array: the page type
is unchanged. -/
theorem recSubExclCol_ptype (fl : EvictFlags) (p : Page) (snaps : Snaps) (last : Option Nat)
    (out : Nat × Page × Snaps × Option Nat)
    (h : recSubExclCol fl p snaps last = Option.some out) : out.2.1.ptype = p.ptype := by
  cases p with
  | mk i t r rc f g m md cs =>
    rw [recSubExclCol] at h
    cases hres : recSubExclColList fl cs snaps last with
    | none => rw [hres] at h; cases h
    | some q =>
      obtain ⟨ret, cs', sn', l'⟩ := q
      rw [hres] at h
      simp only [Option.some.injEq] at h
      subst h
      rfl

/-- The row review walk only replaces the page's slot array: the page type is
unchanged. -/
theorem recSubExclRow_ptype (fl : EvictFlags) (p : Page) (snaps : Snaps) (last : Option Nat)
    (out : Nat × Page × Snaps × Option Nat)
    (h : recSubExclRow fl p snaps last = Option.some out) : out.2.1.ptype = p.ptype := by
  cases p with
  | mk i t r rc f g m md cs =>
    rw [recSubExclRow] at h
    cases hres : recSubExclRowList fl cs snaps last with
    | none => rw [hres] at h; cases h
    | some q =>
      obtain ⟨ret, cs', sn', l'⟩ := q
      rw [hres] at h
      simp only [Option.some.injEq] at h
      subst h
      rfl

/-- The top-level unlock walk with no watermark (as run on the write-failure
and empty-non-root paths): the parent ref ends in WT_REF_MEM and, provided
every LOCKED slot lay on the walk's footprint, no slot of the subtree remains
LOCKED. -/
theorem subExclClear_none_noLocked (fl : EvictFlags) (prSt : RefState) (p : Page)
    (hfl : fl.single = false) (h : footOkTop p = true) :
    (recSubExclClear fl prSt p Option.none).1 = RefState.mem ∧
    noLockedPage (recSubExclClear fl prSt p Option.none).2.1 = true := by
  rw [recSubExclClear]
  simp only [hfl, Bool.false_eq_true, if_false]
  rw [if_neg (by simp : ¬(Option.some p.id = Option.none))]
  unfold footOkTop at h
  cases hp : p.ptype with
  | colInt => rw [hp] at h; exact ⟨rfl, colClear_none_noLocked p h⟩
  | rowInt => rw [hp] at h; exact ⟨rfl, rowClear_none_noLocked p h⟩
  | leaf => rw [hp] at h; exact ⟨rfl, h⟩

mutual
/-- If a subtree starts with no LOCKED slot, then whatever the column review
walk returns (success or failure), every slot it left LOCKED lies on the
column unlock walk's footprint. -/
theorem revFootCol (fl : EvictFlags) :
    ∀ (p : Page) (snaps : Snaps) (last : Option Nat) (out : Nat × Page × Snaps × Option Nat),
      noLockedPage p = true → recSubExclCol fl p snaps last = Option.some out →
      colFootOkPage out.2.1 = true
  | .mk i t r rc f g m md cs, snaps, last, out, h, heq => by
      rw [noLockedPage] at h
      rw [recSubExclCol] at heq
      cases hres : recSubExclColList fl cs snaps last with
      | none => rw [hres] at heq; cases heq
      | some q =>
        obtain ⟨ret, cs', sn', l'⟩ := q
        rw [hres] at heq
        simp only [Option.some.injEq] at heq
        subst heq
        have hl := revFootColList fl cs snaps last (ret, cs', sn', l') h hres
        simpa [colFootOkPage] using hl

/-- Slot-array version of `revFootCol`. -/
theorem revFootColList (fl : EvictFlags) :
    ∀ (cs : ChildList) (snaps : Snaps) (last : Option Nat)
      (out : Nat × ChildList × Snaps × Option Nat),
      noLockedList cs = true → recSubExclColList fl cs snaps last = Option.some out →
      colFootOkList out.2.1 = true
  | .nil, snaps, last, out, h, heq => by
      simp only [recSubExclColList, Option.some.injEq] at heq
      subst heq
      rfl
  | .cons st c rest, snaps, last, out, h, heq => by
      have hnl := h
      rw [noLockedList] at h
      simp only [Bool.and_eq_true] at h
      obtain ⟨⟨hst, hc⟩, hrest⟩ := h
      simp only [recSubExclColList] at heq
      cases st with
      | locked => simp at hst
      | reading =>
          simp only [Option.some.injEq] at heq
          subst heq
          exact noLocked_colFootOkList _ hnl
      | disk =>
          cases hr : recSubExclColList fl rest snaps last with
          | none => rw [hr] at heq; cases heq
          | some q =>
            obtain ⟨ret, rest', sn', l'⟩ := q
            rw [hr] at heq
            simp only [Option.some.injEq] at heq
            subst heq
            have hrec := revFootColList fl rest snaps last (ret, rest', sn', l') hrest hr
            simp only at hrec
            rw [colFootOkList]
            simp only [Bool.and_eq_true]
            refine ⟨?_, hrec⟩
            by_cases hcc : c.ptype = PageType.colInt
            · simp [hcc, noLocked_colFootOkPage c hc]
            · simp [hcc, hc]
      | mem =>
          cases hp : recSubExclPage fl RefState.mem c snaps with
          | none => rw [hp] at heq; cases heq
          | some q1 =>
            obtain ⟨r, st', sn1⟩ := q1
            rw [hp] at heq
            simp only at heq
            by_cases hr0 : r ≠ 0
            · rw [if_pos hr0] at heq
              simp only [Option.some.injEq] at heq
              subst heq
              rw [colFootOkList]
              simp only [Bool.and_eq_true]
              refine ⟨?_, noLocked_colFootOkList rest hrest⟩
              by_cases hcc : c.ptype = PageType.colInt
              · simp [hcc, noLocked_colFootOkPage c hc]
              · simp [hcc, hc]
            · rw [if_neg hr0] at heq
              by_cases hcc : c.ptype = PageType.colInt
              · rw [if_pos hcc] at heq
                cases h2 : recSubExclCol fl c sn1 (Option.some c.id) with
                | none => rw [h2] at heq; cases heq
                | some q2 =>
                  obtain ⟨r2, c2, sn2, l2⟩ := q2
                  rw [h2] at heq
                  simp only at heq
                  have hc2 := revFootCol fl c sn1 (Option.some c.id) (r2, c2, sn2, l2) hc h2
                  have ht2 := recSubExclCol_ptype fl c sn1 (Option.some c.id) (r2, c2, sn2, l2) h2
                  simp only at hc2 ht2
                  by_cases hr2 : r2 ≠ 0
                  · rw [if_pos hr2] at heq
                    simp only [Option.some.injEq] at heq
                    subst heq
                    rw [colFootOkList]
                    simp only [Bool.and_eq_true]
                    exact ⟨by simp [ht2, hcc, hc2], noLocked_colFootOkList rest hrest⟩
                  · rw [if_neg hr2] at heq
                    cases h3 : recSubExclColList fl rest sn2 l2 with
                    | none => rw [h3] at heq; cases heq
                    | some q3 =>
                      obtain ⟨r3, rest', sn3, l3⟩ := q3
                      rw [h3] at heq
                      simp only [Option.some.injEq] at heq
                      subst heq
                      have hr3 := revFootColList fl rest sn2 l2 (r3, rest', sn3, l3) hrest h3
                      simp only at hr3
                      rw [colFootOkList]
                      simp only [Bool.and_eq_true]
                      exact ⟨by simp [ht2, hcc, hc2], hr3⟩
              · rw [if_neg hcc] at heq
                simp only at heq
                cases h3 : recSubExclColList fl rest sn1 (Option.some c.id) with
                | none => rw [h3] at heq; cases heq
                | some q3 =>
                  obtain ⟨r3, rest', sn3, l3⟩ := q3
                  rw [h3] at heq
                  simp at heq
                  subst heq
                  have hr3 := revFootColList fl rest sn1 (Option.some c.id) (r3, rest', sn3, l3) hrest h3
                  simp only at hr3
                  rw [colFootOkList]
                  simp only [Bool.and_eq_true]
                  exact ⟨by simp [hcc, hc], hr3⟩
end

mutual
/-- If a subtree starts with no LOCKED slot, then whatever the row review
walk returns (success or failure), every slot it left LOCKED lies on the
row unlock walk's footprint. -/
theorem revFootRow (fl : EvictFlags) :
    ∀ (p : Page) (snaps : Snaps) (last : Option Nat) (out : Nat × Page × Snaps × Option Nat),
      noLockedPage p = true → recSubExclRow fl p snaps last = Option.some out →
      rowFootOkPage out.2.1 = true
  | .mk i t r rc f g m md cs, snaps, last, out, h, heq => by
      rw [noLockedPage] at h
      rw [recSubExclRow] at heq
      cases hres : recSubExclRowList fl cs snaps last with
      | none => rw [hres] at heq; cases heq
      | some q =>
        obtain ⟨ret, cs', sn', l'⟩ := q
        rw [hres] at heq
        simp only [Option.some.injEq] at heq
        subst heq
        have hl := revFootRowList fl cs snaps last (ret, cs', sn', l') h hres
        simpa [rowFootOkPage] using hl

/-- Slot-array version of `revFootRow`. -/
theorem revFootRowList (fl : EvictFlags) :
    ∀ (cs : ChildList) (snaps : Snaps) (last : Option Nat)
      (out : Nat × ChildList × Snaps × Option Nat),
      noLockedList cs = true → recSubExclRowList fl cs snaps last = Option.some out →
      rowFootOkList out.2.1 = true
  | .nil, snaps, last, out, h, heq => by
      simp only [recSubExclRowList, Option.some.injEq] at heq
      subst heq
      rfl
  | .cons st c rest, snaps, last, out, h, heq => by
      have hnl := h
      rw [noLockedList] at h
      simp only [Bool.and_eq_true] at h
      obtain ⟨⟨hst, hc⟩, hrest⟩ := h
      simp only [recSubExclRowList] at heq
      cases st with
      | locked => simp at hst
      | reading =>
          simp only [Option.some.injEq] at heq
          subst heq
          exact noLocked_rowFootOkList _ hnl
      | disk =>
          cases hr : recSubExclRowList fl rest snaps last with
          | none => rw [hr] at heq; cases heq
          | some q =>
            obtain ⟨ret, rest', sn', l'⟩ := q
            rw [hr] at heq
            simp only [Option.some.injEq] at heq
            subst heq
            have hrec := revFootRowList fl rest snaps last (ret, rest', sn', l') hrest hr
            simp only at hrec
            rw [rowFootOkList]
            simp only [Bool.and_eq_true]
            refine ⟨?_, hrec⟩
            by_cases hcc : c.ptype = PageType.rowInt
            · simp [hcc, noLocked_rowFootOkPage c hc]
            · simp [hcc, hc]
      | mem =>
          cases hp : recSubExclPage fl RefState.mem c snaps with
          | none => rw [hp] at heq; cases heq
          | some q1 =>
            obtain ⟨r, st', sn1⟩ := q1
            rw [hp] at heq
            simp only at heq
            by_cases hr0 : r ≠ 0
            · rw [if_pos hr0] at heq
              simp only [Option.some.injEq] at heq
              subst heq
              rw [rowFootOkList]
              simp only [Bool.and_eq_true]
              refine ⟨?_, noLocked_rowFootOkList rest hrest⟩
              by_cases hcc : c.ptype = PageType.rowInt
              · simp [hcc, noLocked_rowFootOkPage c hc]
              · simp [hcc, hc]
            · rw [if_neg hr0] at heq
              by_cases hcc : c.ptype = PageType.rowInt
              · rw [if_pos hcc] at heq
                cases h2 : recSubExclRow fl c sn1 (Option.some c.id) with
                | none => rw [h2] at heq; cases heq
                | some q2 =>
                  obtain ⟨r2, c2, sn2, l2⟩ := q2
                  rw [h2] at heq
                  simp only at heq
                  have hc2 := revFootRow fl c sn1 (Option.some c.id) (r2, c2, sn2, l2) hc h2
                  have ht2 := recSubExclRow_ptype fl c sn1 (Option.some c.id) (r2, c2, sn2, l2) h2
                  simp only at hc2 ht2
                  by_cases hr2 : r2 ≠ 0
                  · rw [if_pos hr2] at heq
                    simp only [Option.some.injEq] at heq
                    subst heq
                    rw [rowFootOkList]
                    simp only [Bool.and_eq_true]
                    exact ⟨by simp [ht2, hcc, hc2], noLocked_rowFootOkList rest hrest⟩
                  · rw [if_neg hr2] at heq
                    cases h3 : recSubExclRowList fl rest sn2 l2 with
                    | none => rw [h3] at heq; cases heq
                    | some q3 =>
                      obtain ⟨r3, rest', sn3, l3⟩ := q3
                      rw [h3] at heq
                      simp only [Option.some.injEq] at heq
                      subst heq
                      have hr3 := revFootRowList fl rest sn2 l2 (r3, rest', sn3, l3) hrest h3
                      simp only at hr3
                      rw [rowFootOkList]
                      simp only [Bool.and_eq_true]
                      exact ⟨by simp [ht2, hcc, hc2], hr3⟩
              · rw [if_neg hcc] at heq
                simp only at heq
                cases h3 : recSubExclRowList fl rest sn1 (Option.some c.id) with
                | none => rw [h3] at heq; cases heq
                | some q3 =>
                  obtain ⟨r3, rest', sn3, l3⟩ := q3
                  rw [h3] at heq
                  simp at heq
                  subst heq
                  have hr3 := revFootRowList fl rest sn1 (Option.some c.id) (r3, rest', sn3, l3) hrest h3
                  simp only at hr3
                  rw [rowFootOkList]
                  simp only [Bool.and_eq_true]
                  exact ⟨by simp [hcc, hc], hr3⟩
end

/-- The subtree-walk tail of __rec_review: if the review tail succeeds (ret 0)
starting from a subtree with no LOCKED slot, the returned subtree satisfies
the footprint condition of its type's unlock walk. -/
theorem recReviewTail_footOk (fl : EvictFlags) (stT : RefState) (page : Page) (snA : Snaps)
    (last0 : Option Nat) (st1 : RefState) (p1 : Page) (sn1 : Snaps) (last1 : Option Nat)
    (ok1 : Bool) (hn : noLockedPage page = true)
    (h : (match (match page.ptype with
                 | PageType.colInt => recSubExclCol fl page snA last0
                 | PageType.rowInt => recSubExclRow fl page snA last0
                 | PageType.leaf => Option.some (0, page, snA, last0)) with
          | Option.none => Option.none
          | Option.some (ret, p', sn', last') =>
            if ret ≠ 0 then
              match recSubExclClear fl stT p' last' with
              | (st2, p2, ok) => Option.some (ret, st2, p2, sn', last', ok)
            else Option.some (0, stT, p', sn', last', true)) =
      Option.some (0, st1, p1, sn1, last1, ok1)) :
    footOkTop p1 = true := by
  cases hp : page.ptype with
  | colInt =>
    rw [hp] at h
    cases hw : recSubExclCol fl page snA last0 with
    | none => rw [hw] at h; simp at h
    | some q =>
      obtain ⟨ret, p', sn', l'⟩ := q
      rw [hw] at h
      simp only at h
      by_cases hret : ret ≠ 0
      · rw [if_pos hret] at h
        rcases hclr : recSubExclClear fl stT p' l' with ⟨st2, p2, ok⟩
        simp only [Option.some.injEq, Prod.mk.injEq] at h
        exact absurd h.1 hret
      · rw [if_neg hret] at h
        simp only [Option.some.injEq, Prod.mk.injEq] at h
        obtain ⟨_, hp1, _⟩ := h.2
        subst hp1
        have ht := recSubExclCol_ptype fl page snA last0 (ret, p', sn', l') hw
        simp only at ht
        unfold footOkTop
        rw [ht, hp]
        exact revFootCol fl page snA last0 (ret, p', sn', l') hn hw
  | rowInt =>
    rw [hp] at h
    cases hw : recSubExclRow fl page snA last0 with
    | none => rw [hw] at h; simp at h
    | some q =>
      obtain ⟨ret, p', sn', l'⟩ := q
      rw [hw] at h
      simp only at h
      by_cases hret : ret ≠ 0
      · rw [if_pos hret] at h
        rcases hclr : recSubExclClear fl stT p' l' with ⟨st2, p2, ok⟩
        simp only [Option.some.injEq, Prod.mk.injEq] at h
        exact absurd h.1 hret
      · rw [if_neg hret] at h
        simp only [Option.some.injEq, Prod.mk.injEq] at h
        obtain ⟨_, hp1, _⟩ := h.2
        subst hp1
        have ht := recSubExclRow_ptype fl page snA last0 (ret, p', sn', l') hw
        simp only at ht
        unfold footOkTop
        rw [ht, hp]
        exact revFootRow fl page snA last0 (ret, p', sn', l') hn hw
  | leaf =>
    rw [hp] at h
    simp only at h
    rw [if_neg (by simp : ¬((0 : Nat) ≠ 0))] at h
    simp only [Option.some.injEq, Prod.mk.injEq] at h
    obtain ⟨_, hp1, _⟩ := h.2
    subst hp1
    unfold footOkTop
    rw [hp]
    exact hn

/-- __rec_review success on a subtree with no LOCKED slot: the subtree it
returns satisfies the footprint condition of its type's unlock walk. -/
theorem recReview_footOk (fl : EvictFlags) (prSt : RefState) (page : Page) (snaps : Snaps)
    (st1 : RefState) (p1 : Page) (sn1 : Snaps) (last1 : Option Nat) (ok1 : Bool)
    (hn : noLockedPage page = true)
    (h : recReview fl prSt page snaps = Option.some (0, st1, p1, sn1, last1, ok1)) :
    footOkTop p1 = true := by
  rw [recReview] at h
  by_cases hfl : fl.single
  · rw [if_pos hfl] at h
    simp only at h
    rw [if_neg (by simp : ¬((0 : Nat) ≠ 0))] at h
    exact recReviewTail_footOk fl prSt page snaps Option.none st1 p1 sn1 last1 ok1 hn h
  · rw [if_neg hfl] at h
    cases hh : hazardExclusive fl.wait page.id snaps with
    | none => rw [hh] at h; simp at h
    | some q =>
      obtain ⟨r, sth, snh⟩ := q
      rw [hh] at h
      simp only at h
      by_cases hr : r ≠ 0
      · rw [if_pos hr] at h
        simp only [Option.some.injEq, Prod.mk.injEq] at h
        exact absurd h.1 hr
      · rw [if_neg hr] at h
        exact recReviewTail_footOk fl sth page snh (Option.some page.id) st1 p1 sn1 last1 ok1 hn h

@[simp] theorem single_evictFlagsOf (fl0 : EvictFlags) (page : Page) :
    (evictFlagsOf fl0 page).single = fl0.single := by
  unfold evictFlagsOf
  split <;> rfl

@[simp] theorem noLockedPage_evictPageOf (page : Page) :
    noLockedPage (evictPageOf page) = noLockedPage page := by
  unfold evictPageOf
  split <;> simp

/-- The non-root REC_EMPTY branch of __rec_parent_dirty_update in closed
form. -/
theorem recParentDirtyUpdate_empty_nonroot (fl : EvictFlags) (tr : TrackOracle)
    (ws : List WriteResult) (root : BTreeRoot) (pr : ParentRef) (page : Page)
    (hmask : page.recFlags = RecFlags.emptyOnly) (hroot : page.isRoot = false) :
    recParentDirtyUpdate fl tr ws root pr page =
      (match recSubExclClear fl pr.state page Option.none with
       | (st', p', ok) => Option.some ⟨0, { pr with state := st' }, root, ws, [], p', ok⟩) := by
  rw [recParentDirtyUpdate, if_pos hmask, if_neg (by simp [hroot])]

/-- C5: the parent-ref updater on an Empty reconciliation outcome.  Non-root:
it runs the unlock walk with no watermark and returns 0 without discarding
anything and without touching the parent ref's addr, size or page pointer
(only the ref's lock state changes, back to MEM when the caller does not hold
the tree; with the footprint condition no slot of the subtree stays LOCKED).
Root: the parent ref gets addr = WT_ADDR_INVALID, page = NULL, state =
WT_REF_DISK, and the tree is discarded, merged descendants first and the page
itself last.  The driver then surfaces the updater's 0 as evict's return with
nothing discarded on the non-root path. -/
theorem c5_empty_outcome_dispatch (fl : EvictFlags) (tr : TrackOracle)
    (ws : List WriteResult) (root : BTreeRoot) (pr : ParentRef) (page : Page)
    (hmask : page.recFlags = RecFlags.emptyOnly) :
    (page.isRoot = false →
      (recParentDirtyUpdate fl tr ws root pr page =
        (match recSubExclClear fl pr.state page Option.none with
         | (st', p', ok) => Option.some ⟨0, { pr with state := st' }, root, ws, [], p', ok⟩)) ∧
      (fl.single = false → footOkTop page = true →
        ∀ d, recParentDirtyUpdate fl tr ws root pr page = Option.some d →
          d.ret = 0 ∧ d.discards = [] ∧ d.pr.addr = pr.addr ∧ d.pr.size = pr.size ∧
          d.pr.pageId = pr.pageId ∧ d.pr.state = RefState.mem ∧
          noLockedPage d.page = true)) ∧
    (page.isRoot = true → ∀ ds, recSubDiscard tr page [] = (0, ds) → tr page.id = 0 →
      recParentDirtyUpdate fl tr ws root pr page =
        Option.some ⟨0, { pr with addr := WT_ADDR_INVALID, pageId := Option.none,
                                  state := RefState.disk },
                     root, ws, ds ++ [page.id], page, true⟩) ∧
    (∀ (fl0 : EvictFlags) (cacheGen : Nat) (snaps : Snaps) (writes0 : List WriteResult)
       (st1 : RefState) (p1 : Page) (sn1 : Snaps) (last1 : Option Nat) (ok1 : Bool)
       (ws2 : List WriteResult) (pageD : Page),
      pageD.recFlags.splitMerge = false →
      recReview (evictFlagsOf fl0 pageD) pr.state (evictPageOf pageD) snaps =
        Option.some (0, st1, p1, sn1, last1, ok1) →
      evictWriteStep p1 writes0 = Option.some ((0, page), ws2) →
      page.isRoot = false → fl = evictFlagsOf fl0 pageD →
      (wtRecEvict fl0 tr cacheGen root pr pageD snaps writes0).map
        (fun o => (o.ret, o.discards)) = Option.some (0, [])) := by
  refine ⟨fun hroot => ⟨?_, ?_⟩, fun hroot ds hds htr0 => ?_, ?_⟩
  · rw [recParentDirtyUpdate, if_pos hmask, if_neg (by simp [hroot])]
  · intro hfl hfoot d hd
    rw [recParentDirtyUpdate, if_pos hmask, if_neg (by simp [hroot])] at hd
    have hclr := subExclClear_none_noLocked fl pr.state page hfl hfoot
    rcases hres : recSubExclClear fl pr.state page Option.none with ⟨st', p', ok⟩
    rw [hres] at hclr hd
    simp only at hclr hd
    simp only [Option.some.injEq] at hd
    subst hd
    exact ⟨rfl, rfl, rfl, rfl, rfl, hclr.1, hclr.2⟩
  · rw [recParentDirtyUpdate, if_pos hmask, if_pos (by simp [hroot])]
    have hdp : recDiscardPage tr page ds = (0, ds ++ [page.id]) := by
      unfold recDiscardPage
      split
      · rfl
      · simp [htr0]
    simp [dirtyUpdateTail, hds, hdp]
  · intro fl0 cacheGen snaps writes0 st1 p1 sn1 last1 ok1 ws2 pageD
      hsm hrev hws hroot hflof
    have hnc : ¬(page.recFlags = RecFlags.clear) := by rw [hmask]; decide
    have hupd := recParentDirtyUpdate_empty_nonroot (evictFlagsOf fl0 pageD) tr ws2 root
        ({ pr with state := st1 } : ParentRef) page hmask hroot
    rcases hres : recSubExclClear (evictFlagsOf fl0 pageD)
        ({ pr with state := st1 } : ParentRef).state page Option.none with ⟨st', p', ok⟩
    rw [hres] at hupd
    simp only at hupd
    simp only [wtRecEvict, hsm, Bool.false_eq_true, if_false, hrev, hws, hnc, hupd]
    simp

/-- Witness for `c5_empty_outcome_dispatch`: a non-root REC_EMPTY leaf
(id 30). -/
theorem c5_empty_outcome_dispatch_witness :
    (leafPage 30 RecFlags.emptyOnly false PageMod.blank).recFlags = RecFlags.emptyOnly ∧
    ∀ d, recParentDirtyUpdate ⟨false, false⟩ (fun _ => 0) [] ⟨0, 0, Option.none⟩
          ⟨RefState.locked, 3, 4, Option.some 30⟩
          (leafPage 30 RecFlags.emptyOnly false PageMod.blank) = Option.some d →
      d.ret = 0 ∧ d.discards = [] ∧ d.pr.addr = 3 ∧ d.pr.size = 4 ∧
      d.pr.pageId = Option.some 30 ∧ d.pr.state = RefState.mem ∧
      noLockedPage d.page = true :=
  ⟨rfl, ((c5_empty_outcome_dispatch ⟨false, false⟩ (fun _ => 0) [] ⟨0, 0, Option.none⟩
      ⟨RefState.locked, 3, 4, Option.some 30⟩
      (leafPage 30 RecFlags.emptyOnly false PageMod.blank) rfl).1 rfl).2 rfl rfl⟩

/-- A failing write leaves the page unchanged: if the write step returns a
nonzero code, the page it hands back is the page it was given. -/
theorem evictWriteStep_err (p1 : Page) (writes : List WriteResult) (e : Nat) (p2 : Page)
    (ws2 : List WriteResult) (h : evictWriteStep p1 writes = Option.some ((e, p2), ws2))
    (he : e ≠ 0) : p2 = p1 := by
  unfold evictWriteStep at h
  split at h
  · cases writes with
    | nil => simp at h
    | cons w ws =>
      cases w with
      | err e' => simp [applyWrite, Prod.ext_iff] at h; exact h.1.2.symm
      | clean => simp [applyWrite, Prod.ext_iff] at h; exact absurd h.1.1.symm he
      | empty => simp [applyWrite, Prod.ext_iff] at h; exact absurd h.1.1.symm he
      | replace a sz => simp [applyWrite, Prod.ext_iff] at h; exact absurd h.1.1.symm he
      | split np => simp [applyWrite, Prod.ext_iff] at h; exact absurd h.1.1.symm he
  · simp [Prod.ext_iff] at h
    exact absurd h.1.1.symm he

/-- C9 (amended): every error of the write step or of the parent updates is
surfaced unchanged as evict's return value.  On the write-failure path the
unlock walk with no watermark runs first, so the parent ref is back in
WT_REF_MEM and (starting from a tree with no LOCKED slot) no slot remains
LOCKED, with nothing discarded.  On the clean-path discard failure and on the
dirty-update paths the updater's return is surfaced unchanged but no unlock
walk runs: the subtree is returned exactly as the write step left it. -/
theorem c9_error_surfacing (fl0 : EvictFlags) (tr : TrackOracle) (cacheGen : Nat)
    (root : BTreeRoot) (pr : ParentRef) (page : Page) (snaps : Snaps)
    (writes : List WriteResult) (st1 : RefState) (p1 : Page) (sn1 : Snaps)
    (last1 : Option Nat) (ok1 : Bool)
    (hsm : page.recFlags.splitMerge = false)
    (hfl : fl0.single = false)
    (hn : noLockedPage page = true)
    (hrev : recReview (evictFlagsOf fl0 page) pr.state (evictPageOf page) snaps =
      Option.some (0, st1, p1, sn1, last1, ok1)) :
    (∀ e p2 ws2, evictWriteStep p1 writes = Option.some ((e, p2), ws2) → e ≠ 0 →
      (wtRecEvict fl0 tr cacheGen root pr page snaps writes).map
        (fun o => (o.ret, o.pr.state, noLockedPage o.page, o.discards)) =
        Option.some (e, RefState.mem, true, [])) ∧
    (∀ p2 ws2, evictWriteStep p1 writes = Option.some ((0, p2), ws2) →
      p2.recFlags = RecFlags.clear →
      (wtRecEvict fl0 tr cacheGen root pr page snaps writes).map
        (fun o => (o.ret, o.page)) =
        Option.some ((recDiscardPage tr p2 []).1, p2)) ∧
    (∀ p2 ws2 d, evictWriteStep p1 writes = Option.some ((0, p2), ws2) →
      ¬p2.recFlags = RecFlags.clear →
      recParentDirtyUpdate (evictFlagsOf fl0 page) tr ws2 root { pr with state := st1 } p2 =
        Option.some d →
      (wtRecEvict fl0 tr cacheGen root pr page snaps writes).map
        (fun o => (o.ret, o.page)) = Option.some (d.ret, d.page)) := by
  have hfoot : footOkTop p1 = true :=
    recReview_footOk (evictFlagsOf fl0 page) pr.state (evictPageOf page) snaps st1 p1 sn1
      last1 ok1 (by simpa using hn) hrev
  have hfl' : (evictFlagsOf fl0 page).single = false := by simpa using hfl
  refine ⟨?_, ?_, ?_⟩
  · intro e p2 ws2 hws he
    have hp21 : p2 = p1 := evictWriteStep_err p1 writes e p2 ws2 hws he
    subst hp21
    have hclr := subExclClear_none_noLocked (evictFlagsOf fl0 page) st1 p2 hfl' hfoot
    rcases hres : recSubExclClear (evictFlagsOf fl0 page) st1 p2 Option.none with ⟨st2, p3, ok2⟩
    rw [hres] at hclr
    simp only at hclr
    simp only [wtRecEvict, hsm, Bool.false_eq_true, if_false, hrev, hws, hres]
    simp [he, hclr.1, hclr.2]
  · intro p2 ws2 hws hcl
    simp only [wtRecEvict, hsm, Bool.false_eq_true, if_false, hrev, hws,
      recParentCleanUpdate, hcl, if_pos rfl]
    rcases hdp : recDiscardPage tr p2 [] with ⟨e2, acc⟩
    simp
  · intro p2 ws2 d hws hnc hupd
    simp only [wtRecEvict, hsm, Bool.false_eq_true, if_false, hrev, hws, hnc, hupd]
    simp

/-- C9 (counterexample to the claim as stated): a clean row-internal candidate
whose REC_SPLIT_MERGE child the review walk locked; the clean parent update's
__wt_rec_track_discard fails with 7, evict surfaces 7 unchanged, but the
child's ref is still LOCKED: the locks taken by review were not released
before surfacing the discard error. -/
theorem c9_discard_failure_leaves_lock :
    firstSlotState pageCleanWithMergeChild = Option.some RefState.mem ∧
    (wtRecEvict ⟨false, false⟩ trFailAt20 0 ⟨0, 0, Option.none⟩
        ⟨RefState.mem, 0, 0, Option.some 20⟩ pageCleanWithMergeChild [[], []] []).map
      (fun o => (o.ret, firstSlotState o.page, noLockedPage o.page, o.pr.state)) =
      Option.some (7, Option.some RefState.locked, false, RefState.disk) := by
  constructor
  · rfl
  · rfl

/-- Witness for `c9_error_surfacing`: a dirty clean-flagged leaf whose write
fails with error 9; evict surfaces 9 with the parent ref unlocked and no
LOCKED slot left. -/
theorem c9_error_surfacing_witness :
    (leafPage 5 RecFlags.clear true PageMod.blank).recFlags.splitMerge = false ∧
    (⟨false, false⟩ : EvictFlags).single = false ∧
    noLockedPage (leafPage 5 RecFlags.clear true PageMod.blank) = true ∧
    recReview (evictFlagsOf ⟨false, false⟩ (leafPage 5 RecFlags.clear true PageMod.blank))
        RefState.mem (evictPageOf (leafPage 5 RecFlags.clear true PageMod.blank)) [[]] =
      Option.some (0, RefState.locked, leafPage 5 RecFlags.clear true PageMod.blank, [],
        Option.some 5, true) ∧
    (∀ e p2 ws2,
      evictWriteStep (leafPage 5 RecFlags.clear true PageMod.blank) [WriteResult.err 9] =
        Option.some ((e, p2), ws2) → e ≠ 0 →
      (wtRecEvict ⟨false, false⟩ (fun _ => 0) 0 ⟨0, 0, Option.none⟩
          ⟨RefState.mem, 7, 9, Option.some 5⟩ (leafPage 5 RecFlags.clear true PageMod.blank)
          [[]] [WriteResult.err 9]).map
        (fun o => (o.ret, o.pr.state, noLockedPage o.page, o.discards)) =
        Option.some (e, RefState.mem, true, [])) :=
  ⟨rfl, rfl, rfl, rfl,
    (c9_error_surfacing ⟨false, false⟩ (fun _ => 0) 0 ⟨0, 0, Option.none⟩
      ⟨RefState.mem, 7, 9, Option.some 5⟩ (leafPage 5 RecFlags.clear true PageMod.blank)
      [[]] [WriteResult.err 9] RefState.locked
      (leafPage 5 RecFlags.clear true PageMod.blank) [] (Option.some 5) true
      rfl rfl rfl rfl).1⟩

/-- C5 (counterexample to the claim as stated): on a non-root REC_EMPTY page
with a DISK child, the empty-outcome abort path returns 0 without discarding,
but the unlock walk it runs flips the DISK child slot — never locked by
review — to WT_REF_MEM (violating its own WT_ASSERT), so the tree is not left
in its prior state. -/
theorem c5_empty_nonroot_not_prior_state :
    firstSlotState pageEmptyWithDiskChild = Option.some RefState.disk ∧
    (recParentDirtyUpdate ⟨false, false⟩ (fun _ => 0) [] ⟨0, 0, Option.none⟩
        ⟨RefState.locked, 0, 0, Option.some 40⟩ pageEmptyWithDiskChild).map
      (fun d => (d.ret, d.discards, firstSlotState d.page, d.clearOk)) =
      Option.some (0, [], Option.some RefState.mem, false) := by
  constructor
  · rfl
  · rfl

end RecEvict
